import Mathlib

/-!
# Verification of the PSO module (`pso.c` / `pso.h`)

A shallow embedding of the Particle Swarm Optimization module.  C doubles are
modelled as rationals (`ℚ`, exact arithmetic); the process-wide pseudo-random
generator is modelled as a stream of draws `stream : ℕ → ℚ` together with a
cursor, where `stream n` stands for the fraction `rand()/RAND_MAX ∈ [0,1]` of
the `n`-th `rand()` call.  Contents of freshly `malloc`ed (or stack) buffers
are indeterminate in C; they appear here as explicit "junk" parameters, so
every theorem quantifying over them holds for arbitrary initial garbage.

The global-best record additionally carries a ghost field `log`: the list of
values accepted into the global best, newest first.  It is write-only
instrumentation used to state trace properties; no algorithm step reads it.
-/

/- Constants from `pso.h`. -/

/-- Constant `PSO3DIM_STATIC_PARTICLES` from `pso.h` (particle count of the static variants). -/
def PSO3DIM_STATIC_PARTICLES : ℕ := 20

/-- Inertia coefficient `COEFF_W` from `pso.h`. -/
def COEFF_W : ℚ := 0.50

/-- Cognitive coefficient `COEFF_CP` from `pso.h`. -/
def COEFF_CP : ℚ := 2.05

/-- Social coefficient `COEFF_CG` from `pso.h`. -/
def COEFF_CG : ℚ := 2.05

/-- Constant `DBL_MAX` from `<float.h>`: the largest finite double, `2^1024 - 2^971`,
used by `pso.c` both as the initial `best_value` and as the "unset" test. -/
def DBL_MAX : ℚ := 2 ^ 1024 - 2 ^ 971

/-- The process-wide pseudo-random generator: the stream of fractions
`rand()/RAND_MAX` that successive `rand()` calls produce, plus a cursor. -/
structure RNG where
  stream : ℕ → ℚ
  idx : ℕ

/-- Advance the generator by `k` consumed draws. -/
def RNG.advance (g : RNG) (k : ℕ) : RNG := ⟨g.stream, g.idx + k⟩

/-- Macro `random_double(min, max)`:
`(min) + (rand()/(RAND_MAX/((max)-(min))))`.  With `r = rand()/RAND_MAX` this
is `min + r*(max-min)` in exact arithmetic (for `max = min` the C expression
also evaluates to `min`, via division by infinity). Consumes one draw. -/
def random_double (mn mx : ℚ) (g : RNG) : ℚ × RNG :=
  (mn + g.stream g.idx * (mx - mn), g.advance 1)

/-- The saturating bound adjustment applied after a position update:
`if (p < min) p = min; else if (p > max) p = max;`. -/
def clampPos (x mn mx : ℚ) : ℚ :=
  if x < mn then mn else if mx < x then mx else x

/- ## 2-dimensional variant -/

/-- Struct `TParticle3Dim`: velocity, position and personal best over 2 coordinates. -/
structure TParticle3Dim where
  velocity : ℚ × ℚ
  position : ℚ × ℚ
  best_pos : ℚ × ℚ
  best_val : ℚ

/-- Bounds `double bounds[2][2]`: a `(min, max)` pair per dimension. -/
def Bounds2 : Type := (ℚ × ℚ) × (ℚ × ℚ)

/-- Function `init_particle3dim`: random velocity in `[-1,1]` and position within bounds
for both dimensions; `best_pos` is set to the drawn position.  The argument
`p` holds the indeterminate prior contents of the particle's memory (only its
`best_val` survives initialization). -/
def init_particle3dim (p : TParticle3Dim) (bounds : Bounds2) (g : RNG) :
    TParticle3Dim × RNG :=
  let (v0, g) := random_double (-1) 1 g
  let (v1, g) := random_double (-1) 1 g
  let (x0, g) := random_double bounds.1.1 bounds.1.2 g
  let (x1, g) := random_double bounds.2.1 bounds.2.2 g
  ({ p with velocity := (v0, v1), position := (x0, x1), best_pos := (x0, x1) }, g)

/-- Function `update_particle3dim`: draw `rp`, `rg` once (premultiplied by the
cognitive/social coefficients), update both velocity components from the
difference to the global best position, add the velocity to the position and
adjust out-of-bounds positions to the violated bound. -/
def update_particle3dim (p : TParticle3Dim) (bounds : Bounds2)
    (best_pos : ℚ × ℚ) (g : RNG) : TParticle3Dim × RNG :=
  let (r1, g) := random_double 0 1 g
  let rp := r1 * COEFF_CP
  let (r2, g) := random_double 0 1 g
  let rg := r2 * COEFF_CG
  let pos_diff0 := best_pos.1 - p.position.1
  let pos_diff1 := best_pos.2 - p.position.2
  let v0 := COEFF_W * p.velocity.1 + rp * pos_diff0 + rg * pos_diff0
  let v1 := COEFF_W * p.velocity.2 + rp * pos_diff1 + rg * pos_diff1
  let x0 := clampPos (p.position.1 + v0) bounds.1.1 bounds.1.2
  let x1 := clampPos (p.position.2 + v1) bounds.2.1 bounds.2.2
  ({ p with velocity := (v0, v1), position := (x0, x1) }, g)

/-- The global-best record: `best_pos` buffer and `best_value` local of the
drivers, plus the ghost `log` of accepted values (newest first). -/
structure GBest (α : Type) where
  pos : α
  val : ℚ
  log : List ℚ

/-- One step of the evaluation loop body of `pso3dim` (lines 171-188):
evaluate the objective at the particle's position, update the personal best
when `fitness(value, best_val) || i == 0`, and inside that branch update the
global best when `fitness(value, best_value) || best_value == DBL_MAX`. -/
def evalParticle3 (f : ℚ → ℚ → ℚ) (fit : ℚ → ℚ → Bool) (first : Bool)
    (p : TParticle3Dim) (best : GBest (ℚ × ℚ)) :
    TParticle3Dim × GBest (ℚ × ℚ) :=
  let value := f p.position.1 p.position.2
  if fit value p.best_val || first then
    let p' := { p with best_val := value, best_pos := p.position }
    if fit value best.val || decide (best.val = DBL_MAX) then
      (p', ⟨p.position, value, value :: best.log⟩)
    else
      (p', best)
  else
    (p, best)

/-- The evaluation loop over the whole swarm, in array order. -/
def evalSwarm3 (f : ℚ → ℚ → ℚ) (fit : ℚ → ℚ → Bool) (first : Bool) :
    List TParticle3Dim → GBest (ℚ × ℚ) → List TParticle3Dim × GBest (ℚ × ℚ)
  | [], best => ([], best)
  | p :: ps, best =>
    let r := evalParticle3 f fit first p best
    let rs := evalSwarm3 f fit first ps r.2
    (r.1 :: rs.1, rs.2)

/-- The update loop over the whole swarm, in array order. -/
def updateSwarm3 (bounds : Bounds2) (bp : ℚ × ℚ) :
    List TParticle3Dim → RNG → List TParticle3Dim × RNG
  | [], g => ([], g)
  | p :: ps, g =>
    let r := update_particle3dim p bounds bp g
    let rs := updateSwarm3 bounds bp ps r.2
    (r.1 :: rs.1, rs.2)

/-- Initialization loop over the whole swarm, in array order. -/
def initSwarm3 (bounds : Bounds2) :
    List TParticle3Dim → RNG → List TParticle3Dim × RNG
  | [], g => ([], g)
  | p :: ps, g =>
    let r := init_particle3dim p bounds g
    let rs := initSwarm3 bounds ps r.2
    (r.1 :: rs.1, rs.2)

/-- Full state of one 2-dimensional optimizer run. -/
structure State3 where
  swarm : List TParticle3Dim
  best : GBest (ℚ × ℚ)
  rng : RNG

/-- One iteration of the `pso3dim` main loop: the evaluation loop over all
particles, then the update loop over all particles (reading the global best
position settled by this iteration's evaluation). -/
def iter3 (f : ℚ → ℚ → ℚ) (fit : ℚ → ℚ → Bool) (bounds : Bounds2)
    (first : Bool) (st : State3) : State3 :=
  let e := evalSwarm3 f fit first st.swarm st.best
  let u := updateSwarm3 bounds e.2.pos e.1 st.rng
  ⟨u.1, e.2, u.2⟩

/-- Loop `for (i = 0; i < max_iter; i++)`: `n` remaining iterations, `i` the
current loop counter; the evaluation loop treats iteration `i = 0` specially. -/
def runIters3 (f : ℚ → ℚ → ℚ) (fit : ℚ → ℚ → Bool) (bounds : Bounds2) :
    ℕ → ℕ → State3 → State3
  | 0, _, st => st
  | n + 1, i, st => runIters3 f fit bounds n (i + 1) (iter3 f fit bounds (i == 0) st)

/-- Function `pso3dim`: initialize the swarm (`swarm0` is the `malloc`ed array of
`particle_am` particles with indeterminate contents), set `best_value` to
`DBL_MAX` (`bestPos0` is the `malloc`ed, uninitialized best-position buffer),
then run `max_iter` iterations.  Returns the final run state. -/
def pso3dimRun (f : ℚ → ℚ → ℚ) (bounds : Bounds2) (fit : ℚ → ℚ → Bool)
    (swarm0 : List TParticle3Dim) (max_iter : ℕ) (bestPos0 : ℚ × ℚ)
    (g : RNG) : State3 :=
  let s := initSwarm3 bounds swarm0 g
  runIters3 f fit bounds max_iter 0 ⟨s.1, ⟨bestPos0, DBL_MAX, []⟩, s.2⟩

/-- The value `pso3dim` returns: the global best position buffer. -/
def pso3dim (f : ℚ → ℚ → ℚ) (bounds : Bounds2) (fit : ℚ → ℚ → Bool)
    (swarm0 : List TParticle3Dim) (max_iter : ℕ) (bestPos0 : ℚ × ℚ)
    (g : RNG) : ℚ × ℚ :=
  (pso3dimRun f bounds fit swarm0 max_iter bestPos0 g).best.pos

/-- Ghost trace of a `pso3dim` run: values accepted into the global best,
newest first. -/
def pso3dimTrace (f : ℚ → ℚ → ℚ) (bounds : Bounds2) (fit : ℚ → ℚ → Bool)
    (swarm0 : List TParticle3Dim) (max_iter : ℕ) (bestPos0 : ℚ × ℚ)
    (g : RNG) : List ℚ :=
  (pso3dimRun f bounds fit swarm0 max_iter bestPos0 g).best.log

/- ## n-dimensional variant -/

/-- Struct `TParticle`: velocity, position and personal best buffers (each of length
`coords` in every reachable state) and the personal best value. -/
structure TParticle where
  velocity : List ℚ
  position : List ℚ
  best_pos : List ℚ
  best_val : ℚ

/-- The loop body of `init_particlendim` over the dimensions `i < coords`
(rendered as a recursion over the first `coords` bounds entries): for each
dimension draw a velocity in `[-1,1]` and then a position within that
dimension's bounds, in this interleaved order. -/
def initVP : List (ℚ × ℚ) → RNG → List ℚ × List ℚ × RNG
  | [], g => ([], [], g)
  | b :: bs, g =>
    let rv := random_double (-1) 1 g
    let rx := random_double b.1 b.2 rv.2
    let rest := initVP bs rx.2
    (rv.1 :: rest.1, rx.1 :: rest.2.1, rest.2.2)

/-- Function `init_particlendim`: overwrite `velocity` and `position` with fresh draws
for the `coords` dimensions.  Unlike `init_particle3dim`, the C code never
writes `best_pos` here, so the buffer keeps its indeterminate prior contents.
(`coords ≤ bounds.length` is the C precondition; reading past `bounds` would
be undefined, rendered here by truncation.) -/
def init_particlendim (p : TParticle) (bounds : List (ℚ × ℚ)) (coords : ℕ)
    (g : RNG) : TParticle × RNG :=
  let r := initVP (bounds.take coords) g
  ({ p with velocity := r.1, position := r.2.1 }, r.2.2)

/-- The per-dimension loop body of `update_particlendim` (`rp`, `rg` already
drawn): velocity update from the difference to the global best, position
update, saturating bound adjustment. -/
def updVP (rp rg : ℚ) :
    List (ℚ × ℚ) → List ℚ → List ℚ → List ℚ → List ℚ × List ℚ
  | b :: bs, v :: vs, x :: xs, bp :: bps =>
    let pos_diff := bp - x
    let v' := COEFF_W * v + rp * pos_diff + rg * pos_diff
    let x' := clampPos (x + v') b.1 b.2
    let rest := updVP rp rg bs vs xs bps
    (v' :: rest.1, x' :: rest.2)
  | _, _, _, _ => ([], [])

/-- Function `update_particlendim`: draw `rp`, `rg` once for the particle (premultiplied
by the cognitive/social coefficients), then run the per-dimension loop for the
`coords` dimensions. -/
def update_particlendim (p : TParticle) (bounds : List (ℚ × ℚ))
    (best_pos : List ℚ) (coords : ℕ) (g : RNG) : TParticle × RNG :=
  let (r1, g) := random_double 0 1 g
  let rp := r1 * COEFF_CP
  let (r2, g) := random_double 0 1 g
  let rg := r2 * COEFF_CG
  let r := updVP rp rg (bounds.take coords) p.velocity p.position best_pos
  ({ p with velocity := r.1, position := r.2 }, g)

/-- One step of the evaluation loop body of `psondim` (lines 354-371); the
`memcpy` calls copy the whole `coords`-sized position buffer. -/
def evalParticlendim (f : List ℚ → ℚ) (fit : ℚ → ℚ → Bool) (first : Bool)
    (p : TParticle) (best : GBest (List ℚ)) : TParticle × GBest (List ℚ) :=
  let value := f p.position
  if fit value p.best_val || first then
    let p' := { p with best_val := value, best_pos := p.position }
    if fit value best.val || decide (best.val = DBL_MAX) then
      (p', ⟨p.position, value, value :: best.log⟩)
    else
      (p', best)
  else
    (p, best)

/-- The evaluation loop of `psondim` over the whole swarm, in array order. -/
def evalSwarmN (f : List ℚ → ℚ) (fit : ℚ → ℚ → Bool) (first : Bool) :
    List TParticle → GBest (List ℚ) → List TParticle × GBest (List ℚ)
  | [], best => ([], best)
  | p :: ps, best =>
    let r := evalParticlendim f fit first p best
    let rs := evalSwarmN f fit first ps r.2
    (r.1 :: rs.1, rs.2)

/-- The update loop of `psondim` over the whole swarm, in array order. -/
def updateSwarmN (bounds : List (ℚ × ℚ)) (bp : List ℚ) (coords : ℕ) :
    List TParticle → RNG → List TParticle × RNG
  | [], g => ([], g)
  | p :: ps, g =>
    let r := update_particlendim p bounds bp coords g
    let rs := updateSwarmN bounds bp coords ps r.2
    (r.1 :: rs.1, rs.2)

/-- Initialization loop of `psondim` over the whole swarm, in array order. -/
def initSwarmN (bounds : List (ℚ × ℚ)) (coords : ℕ) :
    List TParticle → RNG → List TParticle × RNG
  | [], g => ([], g)
  | p :: ps, g =>
    let r := init_particlendim p bounds coords g
    let rs := initSwarmN bounds coords ps r.2
    (r.1 :: rs.1, rs.2)

/-- Full state of one n-dimensional optimizer run. -/
structure StateN where
  swarm : List TParticle
  best : GBest (List ℚ)
  rng : RNG

/-- One iteration of the `psondim` main loop: evaluation loop, then update
loop. -/
def iterN (f : List ℚ → ℚ) (fit : ℚ → ℚ → Bool) (bounds : List (ℚ × ℚ))
    (coords : ℕ) (first : Bool) (st : StateN) : StateN :=
  let e := evalSwarmN f fit first st.swarm st.best
  let u := updateSwarmN bounds e.2.pos coords e.1 st.rng
  ⟨u.1, e.2, u.2⟩

/-- The `psondim` iteration loop with its counter. -/
def runItersN (f : List ℚ → ℚ) (fit : ℚ → ℚ → Bool) (bounds : List (ℚ × ℚ))
    (coords : ℕ) : ℕ → ℕ → StateN → StateN
  | 0, _, st => st
  | n + 1, i, st =>
    runItersN f fit bounds coords n (i + 1) (iterN f fit bounds coords (i == 0) st)

/-- Function `psondim`: `dimensions--` on an `unsigned short` (wraps modulo `2^16`),
initialize the swarm (`swarm0` is the `malloc`ed array of `particle_am`
particles; each particle's buffers are freshly allocated with indeterminate
contents), set `best_value = DBL_MAX` (`bestPos0` is the `malloc`ed
uninitialized `coords`-sized best-position buffer), then iterate.  Returns the
final run state. -/
def psondimRun (f : List ℚ → ℚ) (bounds : List (ℚ × ℚ)) (dimensions : ℕ)
    (fit : ℚ → ℚ → Bool) (swarm0 : List TParticle) (max_iter : ℕ)
    (bestPos0 : List ℚ) (g : RNG) : StateN :=
  let coords := (dimensions + 2 ^ 16 - 1) % 2 ^ 16
  let s := initSwarmN bounds coords swarm0 g
  runItersN f fit bounds coords max_iter 0 ⟨s.1, ⟨bestPos0, DBL_MAX, []⟩, s.2⟩

/-- The buffer `psondim` returns: the global best position. -/
def psondim (f : List ℚ → ℚ) (bounds : List (ℚ × ℚ)) (dimensions : ℕ)
    (fit : ℚ → ℚ → Bool) (swarm0 : List TParticle) (max_iter : ℕ)
    (bestPos0 : List ℚ) (g : RNG) : List ℚ :=
  (psondimRun f bounds dimensions fit swarm0 max_iter bestPos0 g).best.pos

/-- Ghost trace of a `psondim` run: values accepted into the global best,
newest first. -/
def psondimTrace (f : List ℚ → ℚ) (bounds : List (ℚ × ℚ)) (dimensions : ℕ)
    (fit : ℚ → ℚ → Bool) (swarm0 : List TParticle) (max_iter : ℕ)
    (bestPos0 : List ℚ) (g : RNG) : List ℚ :=
  (psondimRun f bounds dimensions fit swarm0 max_iter bestPos0 g).best.log

/- ## Static 2-dimensional variants -/

/-- Function `pso3dim_static`: a stack-allocated swarm of `PSO3DIM_STATIC_PARTICLES`
particles (indeterminate initial contents, modelled by the junk particle
`junk`), `best_pos` initialized to `{0.0, 0.0}`, and the same initialization,
evaluation and update code as `pso3dim`. -/
def pso3dim_staticRun (f : ℚ → ℚ → ℚ) (bounds : Bounds2) (fit : ℚ → ℚ → Bool)
    (max_iter : ℕ) (junk : TParticle3Dim) (g : RNG) : State3 :=
  let s := initSwarm3 bounds (List.replicate PSO3DIM_STATIC_PARTICLES junk) g
  runIters3 f fit bounds max_iter 0 ⟨s.1, ⟨(0, 0), DBL_MAX, []⟩, s.2⟩

/-- The `TPSOxy` value `pso3dim_static` returns. -/
def pso3dim_static (f : ℚ → ℚ → ℚ) (bounds : Bounds2) (fit : ℚ → ℚ → Bool)
    (max_iter : ℕ) (junk : TParticle3Dim) (g : RNG) : ℚ × ℚ :=
  (pso3dim_staticRun f bounds fit max_iter junk g).best.pos

/-- Ghost trace of a `pso3dim_static` run. -/
def pso3dim_staticTrace (f : ℚ → ℚ → ℚ) (bounds : Bounds2)
    (fit : ℚ → ℚ → Bool) (max_iter : ℕ) (junk : TParticle3Dim) (g : RNG) :
    List ℚ :=
  (pso3dim_staticRun f bounds fit max_iter junk g).best.log

/-- The hand-inlined particle initialization block of `pso3dim_static_opt`
(lines 464-471): a verbatim copy of the body of `init_particle3dim`. -/
def initOpt (p : TParticle3Dim) (bounds : Bounds2) (g : RNG) :
    TParticle3Dim × RNG :=
  let (v0, g) := random_double (-1) 1 g
  let (v1, g) := random_double (-1) 1 g
  let (x0, g) := random_double bounds.1.1 bounds.1.2 g
  let (x1, g) := random_double bounds.2.1 bounds.2.2 g
  ({ p with velocity := (v0, v1), position := (x0, x1), best_pos := (x0, x1) }, g)

/-- The hand-inlined update block of `pso3dim_static_opt` (lines 500-532): a
verbatim copy of the body of `update_particle3dim`. -/
def updateOpt (p : TParticle3Dim) (bounds : Bounds2) (best_pos : ℚ × ℚ)
    (g : RNG) : TParticle3Dim × RNG :=
  let (r1, g) := random_double 0 1 g
  let rp := r1 * COEFF_CP
  let (r2, g) := random_double 0 1 g
  let rg := r2 * COEFF_CG
  let pos_diff0 := best_pos.1 - p.position.1
  let pos_diff1 := best_pos.2 - p.position.2
  let v0 := COEFF_W * p.velocity.1 + rp * pos_diff0 + rg * pos_diff0
  let v1 := COEFF_W * p.velocity.2 + rp * pos_diff1 + rg * pos_diff1
  let x0 := clampPos (p.position.1 + v0) bounds.1.1 bounds.1.2
  let x1 := clampPos (p.position.2 + v1) bounds.2.1 bounds.2.2
  ({ p with velocity := (v0, v1), position := (x0, x1) }, g)

/-- Initialization loop of `pso3dim_static_opt`, with the inlined block. -/
def initSwarmOpt (bounds : Bounds2) :
    List TParticle3Dim → RNG → List TParticle3Dim × RNG
  | [], g => ([], g)
  | p :: ps, g =>
    let r := initOpt p bounds g
    let rs := initSwarmOpt bounds ps r.2
    (r.1 :: rs.1, rs.2)

/-- Update loop of `pso3dim_static_opt`, with the inlined block. -/
def updateSwarmOpt (bounds : Bounds2) (bp : ℚ × ℚ) :
    List TParticle3Dim → RNG → List TParticle3Dim × RNG
  | [], g => ([], g)
  | p :: ps, g =>
    let r := updateOpt p bounds bp g
    let rs := updateSwarmOpt bounds bp ps r.2
    (r.1 :: rs.1, rs.2)

/-- One iteration of `pso3dim_static_opt`: its evaluation loop is textually
the same as `pso3dim_static`'s (no function call was inlined there), followed
by the inlined update loop. -/
def iterOpt (f : ℚ → ℚ → ℚ) (fit : ℚ → ℚ → Bool) (bounds : Bounds2)
    (first : Bool) (st : State3) : State3 :=
  let e := evalSwarm3 f fit first st.swarm st.best
  let u := updateSwarmOpt bounds e.2.pos e.1 st.rng
  ⟨u.1, e.2, u.2⟩

/-- The `pso3dim_static_opt` iteration loop. -/
def runItersOpt (f : ℚ → ℚ → ℚ) (fit : ℚ → ℚ → Bool) (bounds : Bounds2) :
    ℕ → ℕ → State3 → State3
  | 0, _, st => st
  | n + 1, i, st => runItersOpt f fit bounds n (i + 1) (iterOpt f fit bounds (i == 0) st)

/-- Function `pso3dim_static_opt`: as `pso3dim_static`, with the initialization and
update calls hand-inlined. -/
def pso3dim_static_optRun (f : ℚ → ℚ → ℚ) (bounds : Bounds2)
    (fit : ℚ → ℚ → Bool) (max_iter : ℕ) (junk : TParticle3Dim) (g : RNG) :
    State3 :=
  let s := initSwarmOpt bounds (List.replicate PSO3DIM_STATIC_PARTICLES junk) g
  runItersOpt f fit bounds max_iter 0 ⟨s.1, ⟨(0, 0), DBL_MAX, []⟩, s.2⟩

/-- The `TPSOxy` value `pso3dim_static_opt` returns. -/
def pso3dim_static_opt (f : ℚ → ℚ → ℚ) (bounds : Bounds2)
    (fit : ℚ → ℚ → Bool) (max_iter : ℕ) (junk : TParticle3Dim) (g : RNG) :
    ℚ × ℚ :=
  (pso3dim_static_optRun f bounds fit max_iter junk g).best.pos

/-- Ghost trace of a `pso3dim_static_opt` run. -/
def pso3dim_static_optTrace (f : ℚ → ℚ → ℚ) (bounds : Bounds2)
    (fit : ℚ → ℚ → Bool) (max_iter : ℕ) (junk : TParticle3Dim) (g : RNG) :
    List ℚ :=
  (pso3dim_static_optRun f bounds fit max_iter junk g).best.log

/- ## Helper equations -/

/-- The update step leaves the suffix state of the generator intact and
advances the cursor by exactly two draws. -/
theorem update_particle3dim_rng (p : TParticle3Dim) (bounds : Bounds2)
    (bp : ℚ × ℚ) (g : RNG) :
    (update_particle3dim p bounds bp g).2 = g.advance 2 := by
  simp only [update_particle3dim, random_double, RNG.advance]

/-- Claim C2 — For every particle, iteration and dimension, the update step
computes `velocity[d] = COEFF_W*velocity[d] + rp*diff_d + rg*diff_d` with
`diff_d = global_best_position[d] - position[d]`, and then
`position[d] = clampPos (position[d] + velocity[d])` (saturating clamp that
pins an overshooting position exactly to the violated bound and does not
touch the velocity).  `rp` and `rg` are the particle's two consecutive draws
(premultiplied by `COEFF_CP`/`COEFF_CG`), shared by all dimensions of that
particle's update: the same `rp`/`rg` appear in every component (2-dimensional
case) resp. at every depth of the per-dimension loop `updVP` (n-dimensional
case, third and fourth conjuncts), and exactly two draws are consumed.  The
hand-inlined update block of `pso3dim_static_opt` computes the identical
function (last conjunct). -/
theorem update_step_formula (p : TParticle3Dim) (bounds : Bounds2)
    (bp : ℚ × ℚ) (g : RNG) (rp rg : ℚ) (b : ℚ × ℚ) (bs : List (ℚ × ℚ))
    (v x bp1 : ℚ) (vs xs bps : List ℚ) (pn : TParticle)
    (boundsN : List (ℚ × ℚ)) (bpN : List ℚ) (coords : ℕ) :
    ((update_particle3dim p bounds bp g).1.velocity.1 =
        COEFF_W * p.velocity.1 +
          g.stream g.idx * COEFF_CP * (bp.1 - p.position.1) +
          g.stream (g.idx + 1) * COEFF_CG * (bp.1 - p.position.1) ∧
      (update_particle3dim p bounds bp g).1.velocity.2 =
        COEFF_W * p.velocity.2 +
          g.stream g.idx * COEFF_CP * (bp.2 - p.position.2) +
          g.stream (g.idx + 1) * COEFF_CG * (bp.2 - p.position.2) ∧
      (update_particle3dim p bounds bp g).1.position.1 =
        clampPos (p.position.1 + (update_particle3dim p bounds bp g).1.velocity.1)
          bounds.1.1 bounds.1.2 ∧
      (update_particle3dim p bounds bp g).1.position.2 =
        clampPos (p.position.2 + (update_particle3dim p bounds bp g).1.velocity.2)
          bounds.2.1 bounds.2.2 ∧
      (update_particle3dim p bounds bp g).1.best_pos = p.best_pos ∧
      (update_particle3dim p bounds bp g).1.best_val = p.best_val ∧
      (update_particle3dim p bounds bp g).2 = g.advance 2) ∧
    updVP rp rg (b :: bs) (v :: vs) (x :: xs) (bp1 :: bps) =
      ((COEFF_W * v + rp * (bp1 - x) + rg * (bp1 - x)) ::
          (updVP rp rg bs vs xs bps).1,
        clampPos (x + (COEFF_W * v + rp * (bp1 - x) + rg * (bp1 - x))) b.1 b.2 ::
          (updVP rp rg bs vs xs bps).2) ∧
    update_particlendim pn boundsN bpN coords g =
      ({ pn with
          velocity :=
            (updVP (g.stream g.idx * COEFF_CP) (g.stream (g.idx + 1) * COEFF_CG)
                (boundsN.take coords) pn.velocity pn.position bpN).1,
          position :=
            (updVP (g.stream g.idx * COEFF_CP) (g.stream (g.idx + 1) * COEFF_CG)
                (boundsN.take coords) pn.velocity pn.position bpN).2 },
        g.advance 2) ∧
    updateOpt p bounds bp g = update_particle3dim p bounds bp g := by
  refine ⟨⟨?_, ?_, ?_, ?_, ?_, ?_, ?_⟩, ?_, ?_, rfl⟩
  · simp only [update_particle3dim, random_double, RNG.advance]; ring
  · simp only [update_particle3dim, random_double, RNG.advance]; ring
  · simp only [update_particle3dim, random_double, RNG.advance]
  · simp only [update_particle3dim, random_double, RNG.advance]
  · simp only [update_particle3dim, random_double, RNG.advance]
  · simp only [update_particle3dim, random_double, RNG.advance]
  · simp only [update_particle3dim, random_double, RNG.advance]
  · simp only [updVP]
  · simp only [update_particlendim, random_double, RNG.advance]
    have h1 : (0 : ℚ) + g.stream g.idx * (1 - 0) = g.stream g.idx := by ring
    have h2 : (0 : ℚ) + g.stream (g.idx + 1) * (1 - 0) = g.stream (g.idx + 1) := by
      ring
    rw [h1, h2]

/-- Claim C5 (amended) — Particle initialization: the 2-dimensional variant
draws `velocity[d]` as `-1 + r*2` (uniform over `[-1,1]`), `position[d]` as
`min_d + r*(max_d - min_d)` (uniform over `[min_d, max_d]`), consuming the
four draws in the order `v0, v1, x0, x1`, and sets
`best_position = position`; the n-dimensional variant draws the same
per-dimension values interleaved (`v0, x0, v1, x1, ...`) but — contrary to
the claim — leaves `best_pos` (and `best_val`) completely untouched. -/
theorem init_particle_characterization (p : TParticle3Dim) (bounds : Bounds2)
    (g : RNG) (pn : TParticle) (boundsN : List (ℚ × ℚ)) (coords : ℕ)
    (b : ℚ × ℚ) (bs : List (ℚ × ℚ)) :
    ((init_particle3dim p bounds g).1.velocity.1 = -1 + g.stream g.idx * 2 ∧
      (init_particle3dim p bounds g).1.velocity.2 =
        -1 + g.stream (g.idx + 1) * 2 ∧
      (init_particle3dim p bounds g).1.position.1 =
        bounds.1.1 + g.stream (g.idx + 2) * (bounds.1.2 - bounds.1.1) ∧
      (init_particle3dim p bounds g).1.position.2 =
        bounds.2.1 + g.stream (g.idx + 3) * (bounds.2.2 - bounds.2.1) ∧
      (init_particle3dim p bounds g).1.best_pos =
        (init_particle3dim p bounds g).1.position ∧
      (init_particle3dim p bounds g).1.best_val = p.best_val ∧
      (init_particle3dim p bounds g).2 = g.advance 4) ∧
    initVP (b :: bs) g =
      ((-1 + g.stream g.idx * 2) :: (initVP bs (g.advance 2)).1,
        (b.1 + g.stream (g.idx + 1) * (b.2 - b.1)) ::
          (initVP bs (g.advance 2)).2.1,
        (initVP bs (g.advance 2)).2.2) ∧
    init_particlendim pn boundsN coords g =
      ({ pn with velocity := (initVP (boundsN.take coords) g).1,
                 position := (initVP (boundsN.take coords) g).2.1 },
        (initVP (boundsN.take coords) g).2.2) ∧
    (init_particlendim pn boundsN coords g).1.best_pos = pn.best_pos ∧
    (init_particlendim pn boundsN coords g).1.best_val = pn.best_val := by
  refine ⟨⟨?_, ?_, ?_, ?_, ?_, ?_, ?_⟩, ?_, ?_, ?_, ?_⟩
  · simp only [init_particle3dim, random_double, RNG.advance]; ring
  · simp only [init_particle3dim, random_double, RNG.advance]; ring
  · simp only [init_particle3dim, random_double, RNG.advance]
  · simp only [init_particle3dim, random_double, RNG.advance]
  · simp only [init_particle3dim, random_double, RNG.advance]
  · simp only [init_particle3dim, random_double, RNG.advance]
  · simp only [init_particle3dim, random_double, RNG.advance]
  · have hv : (-1 : ℚ) + g.stream g.idx * (1 - -1) = -1 + g.stream g.idx * 2 := by
      ring
    simp only [initVP, random_double, RNG.advance, hv]
  · simp only [init_particlendim]
  · simp only [init_particlendim]
  · simp only [init_particlendim]

/-- Claim C5 counterexample — the n-dimensional initializer does *not* set
`best_position[d] = position[d]`: initializing a particle whose `best_pos`
buffer holds the garbage value `[42]` over bounds `[(0,1)]` with an all-zero
draw stream yields `position = [0]` but `best_pos = [42]`. -/
theorem initndim_best_pos_cex :
    (init_particlendim ⟨[0], [0], [42], 0⟩ [(0, 1)] 1 ⟨fun _ => 0, 0⟩).1.best_pos ≠
      (init_particlendim ⟨[0], [0], [42], 0⟩ [(0, 1)] 1 ⟨fun _ => 0, 0⟩).1.position := by
  norm_num [init_particlendim, initVP, random_double, RNG.advance, List.take]

/-- Claim C6 (amended) — the global best is replaced exactly when
`fitness(value, global_best_value)` holds **or `global_best_value = DBL_MAX`**:
the "never set" test is the numeric comparison `best_value == DBL_MAX` against
the magic constant, not a distinct sentinel state (both in the 2-dimensional
and in the n-dimensional evaluation step, and only inside the personal-best
branch). -/
theorem global_best_acceptance_rule (f3 : ℚ → ℚ → ℚ) (fN : List ℚ → ℚ)
    (fit : ℚ → ℚ → Bool) (first : Bool) (p : TParticle3Dim) (pn : TParticle)
    (best3 : GBest (ℚ × ℚ)) (bestN : GBest (List ℚ)) :
    (evalParticle3 f3 fit first p best3).2 =
      (if (fit (f3 p.position.1 p.position.2) p.best_val || first) &&
          (fit (f3 p.position.1 p.position.2) best3.val ||
            decide (best3.val = DBL_MAX)) then
        ⟨p.position, f3 p.position.1 p.position.2,
          f3 p.position.1 p.position.2 :: best3.log⟩
      else best3) ∧
    (evalParticlendim fN fit first pn bestN).2 =
      (if (fit (fN pn.position) pn.best_val || first) &&
          (fit (fN pn.position) bestN.val || decide (bestN.val = DBL_MAX)) then
        ⟨pn.position, fN pn.position, fN pn.position :: bestN.log⟩
      else bestN) := by
  constructor
  · cases h1 : fit (f3 p.position.1 p.position.2) p.best_val || first <;>
      cases h2 : fit (f3 p.position.1 p.position.2) best3.val ||
        decide (best3.val = DBL_MAX) <;>
      simp [evalParticle3, h1, h2]
  · cases h1 : fit (fN pn.position) pn.best_val || first <;>
      cases h2 : fit (fN pn.position) bestN.val ||
        decide (bestN.val = DBL_MAX) <;>
      simp [evalParticlendim, h1, h2]

/-- Claim C6 counterexample — the "unset" state is not distinct from a recorded
`DBL_MAX`: with the maximizing fitness `b < a` and an objective that returns
`DBL_MAX` at the first particle's position and `7` at the second's, a
`psondim` run records `DBL_MAX` as global best and then *accepts `7` although
`fitness(7, DBL_MAX)` is false and a global best had already been recorded* —
an objective legitimately returning `DBL_MAX` is treated as "never set". -/
theorem global_best_sentinel_cex :
    psondimTrace (fun xs => if xs.headD 0 = 0 then DBL_MAX else 7)
        [(0, 10), (0, 10)] 3 (fun a b => decide (b < a))
        [⟨[0, 0], [0, 0], [0, 0], 0⟩, ⟨[0, 0], [0, 0], [0, 0], 0⟩] 1 [0, 0]
        ⟨fun n => if n = 5 then 1 / 10 else 0, 0⟩ = [7, DBL_MAX] ∧
      (fun a b : ℚ => decide (b < a)) 7 DBL_MAX = false := by
  constructor
  · norm_num [psondimTrace, psondimRun, initSwarmN, init_particlendim, initVP,
      random_double, RNG.advance, runItersN, iterN, evalSwarmN, evalParticlendim,
      updateSwarmN, update_particlendim, updVP, clampPos, COEFF_W, COEFF_CP,
      COEFF_CG, DBL_MAX, List.take, List.headD]
  · norm_num [DBL_MAX]

/- ## Empty-swarm helper lemmas -/

/-- With an empty swarm every iteration of the 2-dimensional loop is a no-op. -/
theorem runIters3_nil (f : ℚ → ℚ → ℚ) (fit : ℚ → ℚ → Bool) (bounds : Bounds2) :
    ∀ (n i : ℕ) (best : GBest (ℚ × ℚ)) (g : RNG),
      runIters3 f fit bounds n i ⟨[], best, g⟩ = ⟨[], best, g⟩ := by
  intro n
  induction n with
  | zero => intro i best g; rfl
  | succ m ih => intro i best g; exact ih (i + 1) best g

/-- With an empty swarm every iteration of the n-dimensional loop is a no-op. -/
theorem runItersN_nil (f : List ℚ → ℚ) (fit : ℚ → ℚ → Bool)
    (bounds : List (ℚ × ℚ)) (coords : ℕ) :
    ∀ (n i : ℕ) (best : GBest (List ℚ)) (g : RNG),
      runItersN f fit bounds coords n i ⟨[], best, g⟩ = ⟨[], best, g⟩ := by
  intro n
  induction n with
  | zero => intro i best g; rfl
  | succ m ih => intro i best g; exact ih (i + 1) best g

/-- Claim C7 (amended) — `max_iterations = 0` performs no objective evaluation
and no update step at all (the ghost trace stays empty), and each entry point
returns its best-position buffer untouched: `pso3dim` and `psondim` return
the `malloc`ed buffer's indeterminate initial contents, the static variants
return `(0, 0)` — *not* a position drawn from initialization. -/
theorem zero_iter_behavior (f3 : ℚ → ℚ → ℚ) (bounds : Bounds2)
    (fit : ℚ → ℚ → Bool) (swarm0 : List TParticle3Dim) (bestPos0 : ℚ × ℚ)
    (g : RNG) (fN : List ℚ → ℚ) (boundsN : List (ℚ × ℚ)) (dims : ℕ)
    (swarmN : List TParticle) (bestPos0N : List ℚ) (junk : TParticle3Dim) :
    pso3dim f3 bounds fit swarm0 0 bestPos0 g = bestPos0 ∧
    pso3dimTrace f3 bounds fit swarm0 0 bestPos0 g = [] ∧
    psondim fN boundsN dims fit swarmN 0 bestPos0N g = bestPos0N ∧
    psondimTrace fN boundsN dims fit swarmN 0 bestPos0N g = [] ∧
    pso3dim_static f3 bounds fit 0 junk g = (0, 0) ∧
    pso3dim_staticTrace f3 bounds fit 0 junk g = [] ∧
    pso3dim_static_opt f3 bounds fit 0 junk g = (0, 0) ∧
    pso3dim_static_optTrace f3 bounds fit 0 junk g = [] :=
  ⟨rfl, rfl, rfl, rfl, rfl, rfl, rfl, rfl⟩

/-- Claim C7 counterexample — with bounds `[[5,5],[5,5]]` (every initialized
position is `(5,5)`) and `max_iterations = 0`, `pso3dim_static` returns
`(0,0)`, which is not the position of any initialized particle, and its trace
is empty: no particle evaluation ever set the global best. -/
theorem zero_iter_claim_cex :
    pso3dim_static (fun x y => x + y) ((5, 5), (5, 5))
        (fun a b => decide (a < b)) 0 ⟨(0, 0), (0, 0), (0, 0), 0⟩
        ⟨fun _ => 0, 0⟩ = (0, 0) ∧
    pso3dim_staticTrace (fun x y => x + y) ((5, 5), (5, 5))
        (fun a b => decide (a < b)) 0 ⟨(0, 0), (0, 0), (0, 0), 0⟩
        ⟨fun _ => 0, 0⟩ = [] ∧
    ((0 : ℚ), (0 : ℚ)) ∉
      (initSwarm3 ((5, 5), (5, 5))
          (List.replicate PSO3DIM_STATIC_PARTICLES ⟨(0, 0), (0, 0), (0, 0), 0⟩)
          ⟨fun _ => 0, 0⟩).1.map (fun p => p.position) := by
  refine ⟨rfl, rfl, ?_⟩
  norm_num [initSwarm3, init_particle3dim, random_double, RNG.advance,
    List.replicate, PSO3DIM_STATIC_PARTICLES, Prod.ext_iff]

/-- Claim C8 (amended) — the entry points perform no contract validation at
all: a zero particle count is not rejected (the run degenerates to no-ops and
returns the uninitialized best-position buffer), and neither malformed bounds
(`min_d > max_d`) nor a dimension count exceeding the bounds array prevent
the algorithm from running — the objective is evaluated and a global best
recorded (trace of length 1 below) for completely arbitrary bounds.  No
failure is ever reported; the C code has no validation or error path before
its allocations. -/
theorem no_contract_validation (f3 : ℚ → ℚ → ℚ) (bounds : Bounds2)
    (fit : ℚ → ℚ → Bool) (m : ℕ) (bestPos0 : ℚ × ℚ) (g : RNG)
    (fN : List ℚ → ℚ) (boundsN : List (ℚ × ℚ)) (dims : ℕ)
    (bestPos0N : List ℚ) (p3 : TParticle3Dim) (pn : TParticle) (b0 : ℚ × ℚ) :
    pso3dim f3 bounds fit [] m bestPos0 g = bestPos0 ∧
    pso3dimTrace f3 bounds fit [] m bestPos0 g = [] ∧
    psondim fN boundsN dims fit [] m bestPos0N g = bestPos0N ∧
    psondimTrace fN boundsN dims fit [] m bestPos0N g = [] ∧
    (pso3dimTrace f3 bounds fit [p3] 1 bestPos0 g).length = 1 ∧
    (psondimTrace fN [b0] 3 fit [pn] 1 bestPos0N g).length = 1 := by
  refine ⟨?_, ?_, ?_, ?_, ?_, ?_⟩
  · simp [pso3dim, pso3dimRun, initSwarm3, runIters3_nil]
  · simp [pso3dimTrace, pso3dimRun, initSwarm3, runIters3_nil]
  · simp [psondim, psondimRun, initSwarmN, runItersN_nil]
  · simp [psondimTrace, psondimRun, initSwarmN, runItersN_nil]
  · simp [pso3dimTrace, pso3dimRun, initSwarm3, runIters3, iter3, evalSwarm3,
      evalParticle3, updateSwarm3]
  · simp [psondimTrace, psondimRun, initSwarmN, runItersN, iterN, evalSwarmN,
      evalParticlendim, updateSwarmN]

/-- Claim C8 counterexample — a call with malformed bounds (`min = 1 > 0 = max`
in both dimensions) is *not* rejected: the run proceeds, evaluates the
objective and records a global best (nonempty trace), instead of reporting a
failure before allocation. -/
theorem contract_violation_not_rejected_cex :
    (1 : ℚ) > 0 ∧
    pso3dimTrace (fun x y => x + y) ((1, 0), (1, 0)) (fun a b => decide (a < b))
        [⟨(0, 0), (0, 0), (0, 0), 0⟩] 1 (0, 0) ⟨fun _ => 0, 0⟩ ≠ [] := by
  constructor
  · norm_num
  · norm_num [pso3dimTrace, pso3dimRun, initSwarm3, init_particle3dim,
      random_double, RNG.advance, runIters3, iter3, evalSwarm3, evalParticle3,
      updateSwarm3, update_particle3dim, clampPos, COEFF_W, COEFF_CP, COEFF_CG]

/- ## `pso3dim_static_opt` ≡ `pso3dim_static` -/

/-- The inlined initialization block equals `init_particle3dim`. -/
theorem initOpt_eq : initOpt = init_particle3dim := rfl

/-- The inlined update block equals `update_particle3dim`. -/
theorem updateOpt_eq : updateOpt = update_particle3dim := rfl

/-- The two initialization loops agree. -/
theorem initSwarmOpt_eq (bounds : Bounds2) :
    ∀ (l : List TParticle3Dim) (g : RNG),
      initSwarmOpt bounds l g = initSwarm3 bounds l g := by
  intro l
  induction l with
  | nil => intro g; rfl
  | cons p ps ih =>
    intro g
    simp [initSwarmOpt, initSwarm3, initOpt_eq, ih]

/-- The two update loops agree. -/
theorem updateSwarmOpt_eq (bounds : Bounds2) (bp : ℚ × ℚ) :
    ∀ (l : List TParticle3Dim) (g : RNG),
      updateSwarmOpt bounds bp l g = updateSwarm3 bounds bp l g := by
  intro l
  induction l with
  | nil => intro g; rfl
  | cons p ps ih =>
    intro g
    simp [updateSwarmOpt, updateSwarm3, updateOpt_eq, ih]

/-- The two iteration loops agree. -/
theorem runItersOpt_eq (f : ℚ → ℚ → ℚ) (fit : ℚ → ℚ → Bool)
    (bounds : Bounds2) :
    ∀ (n i : ℕ) (st : State3),
      runItersOpt f fit bounds n i st = runIters3 f fit bounds n i st := by
  intro n
  induction n with
  | zero => intro i st; rfl
  | succ m ih =>
    intro i st
    have hiter : iterOpt f fit bounds (i == 0) st = iter3 f fit bounds (i == 0) st := by
      simp [iterOpt, iter3, updateSwarmOpt_eq]
    simp [runItersOpt, runIters3, hiter, ih]

/-- Claim C10 — `pso3dim_static` and the hand-inlined `pso3dim_static_opt`
produce the same full run state for every objective, bounds, fitness
predicate, iteration count, initial stack garbage and pseudo-random stream —
in particular they consume the draws in the same order (identical final
generator cursor) and return the identical `(x, y)` result. -/
theorem static_opt_equiv (f : ℚ → ℚ → ℚ) (bounds : Bounds2)
    (fit : ℚ → ℚ → Bool) (max_iter : ℕ) (junk : TParticle3Dim) (g : RNG) :
    pso3dim_static_optRun f bounds fit max_iter junk g =
      pso3dim_staticRun f bounds fit max_iter junk g ∧
    pso3dim_static_opt f bounds fit max_iter junk g =
      pso3dim_static f bounds fit max_iter junk g := by
  have hrun : pso3dim_static_optRun f bounds fit max_iter junk g =
      pso3dim_staticRun f bounds fit max_iter junk g := by
    simp [pso3dim_static_optRun, pso3dim_staticRun, initSwarmOpt_eq,
      runItersOpt_eq]
  exact ⟨hrun, by simp [pso3dim_static_opt, pso3dim_static, hrun]⟩

/- ## Bounds invariant -/

/-- A coordinate lies within one dimension's `(min, max)` bounds. -/
def InB (b : ℚ × ℚ) (x : ℚ) : Prop := b.1 ≤ x ∧ x ≤ b.2

/-- A 2-dimensional position lies within the bounds. -/
def InB2 (bounds : Bounds2) (q : ℚ × ℚ) : Prop :=
  InB bounds.1 q.1 ∧ InB bounds.2 q.2

/-- Every particle of a 2-dimensional run state has its position in bounds. -/
def AllInB3 (bounds : Bounds2) (st : State3) : Prop :=
  ∀ p ∈ st.swarm, InB2 bounds p.position

/-- An n-dimensional particle's position fits the (truncated) bounds list
dimension by dimension (in particular it has the same length). -/
def PosFits (bl : List (ℚ × ℚ)) (p : TParticle) : Prop :=
  List.Forall₂ (fun b x => InB b x) bl p.position

/-- Every particle of an n-dimensional run state has its position in bounds. -/
def AllInBN (bl : List (ℚ × ℚ)) (st : StateN) : Prop :=
  ∀ p ∈ st.swarm, PosFits bl p

/-- Every draw of the stream is a `rand()/RAND_MAX` fraction in `[0,1]`. -/
def UnitStream (g : RNG) : Prop := ∀ n, 0 ≤ g.stream n ∧ g.stream n ≤ 1

/-- Well-formed 2-dimensional bounds: `min_d ≤ max_d` in both dimensions. -/
def WF2 (bounds : Bounds2) : Prop :=
  bounds.1.1 ≤ bounds.1.2 ∧ bounds.2.1 ≤ bounds.2.2

/-- Well-formed bounds list: `min_d ≤ max_d` in every dimension. -/
def WFN (bounds : List (ℚ × ℚ)) : Prop := ∀ b ∈ bounds, b.1 ≤ b.2

/-- Advancing the cursor keeps all draws in `[0,1]`. -/
theorem UnitStream.advance {g : RNG} (h : UnitStream g) (k : ℕ) :
    UnitStream (g.advance k) := h

/-- The saturating bound adjustment lands in `[min, max]` when `min ≤ max`. -/
theorem clampPos_mem {mn mx : ℚ} (x : ℚ) (h : mn ≤ mx) :
    mn ≤ clampPos x mn mx ∧ clampPos x mn mx ≤ mx := by
  unfold clampPos
  split_ifs with h1 h2
  · exact ⟨le_refl mn, h⟩
  · exact ⟨h, le_refl mx⟩
  · exact ⟨le_of_not_lt h1, le_of_not_lt h2⟩

/-- A random draw `random_double(min, max)` lands in `[min, max]` when `min ≤ max`
and the underlying fraction is in `[0,1]`. -/
theorem random_double_mem {mn mx : ℚ} {g : RNG} (h : mn ≤ mx)
    (hr : 0 ≤ g.stream g.idx ∧ g.stream g.idx ≤ 1) :
    mn ≤ (random_double mn mx g).1 ∧ (random_double mn mx g).1 ≤ mx := by
  simp only [random_double]
  constructor
  · nlinarith [hr.1, hr.2, sub_nonneg.mpr h]
  · nlinarith [hr.1, hr.2, sub_nonneg.mpr h]

/-- An initialized 2-dimensional particle's position is in bounds. -/
theorem init_particle3dim_inb (p : TParticle3Dim) (bounds : Bounds2) (g : RNG)
    (hg : UnitStream g) (hwf : WF2 bounds) :
    InB2 bounds (init_particle3dim p bounds g).1.position := by
  have h2 := random_double_mem (g := g.advance 2) hwf.1 (hg (g.idx + 2))
  have h3 := random_double_mem (g := g.advance 3) hwf.2 (hg (g.idx + 3))
  simp only [random_double, RNG.advance] at h2 h3
  simp only [init_particle3dim, random_double, RNG.advance, InB2, InB]
  exact ⟨h2, h3⟩

/-- Every particle of an initialized 2-dimensional swarm is in bounds. -/
theorem initSwarm3_inb (bounds : Bounds2) (hwf : WF2 bounds) :
    ∀ (l : List TParticle3Dim) (g : RNG), UnitStream g →
      ∀ p ∈ (initSwarm3 bounds l g).1, InB2 bounds p.position := by
  intro l
  induction l with
  | nil => intro g hg p hp; simp [initSwarm3] at hp
  | cons q qs ih =>
    intro g hg p hp
    simp only [initSwarm3, List.mem_cons] at hp
    rcases hp with hp | hp
    · subst hp; exact init_particle3dim_inb q bounds g hg hwf
    · have hg' : UnitStream (init_particle3dim q bounds g).2 := hg
      exact ih (init_particle3dim q bounds g).2 hg' p hp

/-- An updated 2-dimensional particle's position is in bounds. -/
theorem update_particle3dim_inb (p : TParticle3Dim) (bounds : Bounds2)
    (bp : ℚ × ℚ) (g : RNG) (hwf : WF2 bounds) :
    InB2 bounds (update_particle3dim p bounds bp g).1.position := by
  simp only [update_particle3dim, InB2, InB]
  exact ⟨clampPos_mem _ hwf.1, clampPos_mem _ hwf.2⟩

/-- Every particle of an updated 2-dimensional swarm is in bounds. -/
theorem updateSwarm3_inb (bounds : Bounds2) (bp : ℚ × ℚ) (hwf : WF2 bounds) :
    ∀ (l : List TParticle3Dim) (g : RNG),
      ∀ p ∈ (updateSwarm3 bounds bp l g).1, InB2 bounds p.position := by
  intro l
  induction l with
  | nil => intro g p hp; simp [updateSwarm3] at hp
  | cons q qs ih =>
    intro g p hp
    simp only [updateSwarm3, List.mem_cons] at hp
    rcases hp with hp | hp
    · subst hp; exact update_particle3dim_inb q bounds bp g hwf
    · exact ih _ p hp

/-- After any iteration of the 2-dimensional loop, all positions are in
bounds (the update phase re-establishes the invariant unconditionally). -/
theorem iter3_inb (f : ℚ → ℚ → ℚ) (fit : ℚ → ℚ → Bool) (bounds : Bounds2)
    (first : Bool) (st : State3) (hwf : WF2 bounds) :
    AllInB3 bounds (iter3 f fit bounds first st) := by
  intro p hp
  exact updateSwarm3_inb bounds _ hwf _ _ p hp

/-- The 2-dimensional iteration loop preserves the bounds invariant. -/
theorem runIters3_inb (f : ℚ → ℚ → ℚ) (fit : ℚ → ℚ → Bool) (bounds : Bounds2)
    (hwf : WF2 bounds) :
    ∀ (n i : ℕ) (st : State3), AllInB3 bounds st →
      AllInB3 bounds (runIters3 f fit bounds n i st) := by
  intro n
  induction n with
  | zero => intro i st h; exact h
  | succ m ih =>
    intro i st h
    exact ih (i + 1) _ (iter3_inb f fit bounds (i == 0) st hwf)

/-- Truncating a well-formed bounds list keeps it well-formed. -/
theorem WFN.take {bounds : List (ℚ × ℚ)} (h : WFN bounds) (k : ℕ) :
    WFN (bounds.take k) := fun b hb => h b (List.mem_of_mem_take hb)

/-- Shape invariant of an n-dimensional run state: every particle's position
is in bounds, every velocity buffer and the global best-position buffer have
one entry per dimension. -/
def ShapeN (bl : List (ℚ × ℚ)) (st : StateN) : Prop :=
  (∀ p ∈ st.swarm, PosFits bl p ∧ p.velocity.length = bl.length) ∧
    st.best.pos.length = bl.length

/-- The interleaved initialization draws produce a position within bounds and
a velocity buffer of matching length. -/
theorem initVP_fits :
    ∀ (bl : List (ℚ × ℚ)) (g : RNG), UnitStream g → WFN bl →
      List.Forall₂ (fun b x => InB b x) bl (initVP bl g).2.1 ∧
        (initVP bl g).1.length = bl.length := by
  intro bl
  induction bl with
  | nil => intro g hg hwf; exact ⟨List.Forall₂.nil, rfl⟩
  | cons b bs ih =>
    intro g hg hwf
    have hb : b.1 ≤ b.2 := hwf b (List.mem_cons_self b bs)
    have hx := random_double_mem (g := g.advance 1) hb (hg (g.idx + 1))
    have hrest := ih ((g.advance 1).advance 1) hg (fun c hc => hwf c (List.mem_cons_of_mem b hc))
    simp only [initVP, random_double, RNG.advance] at hx hrest ⊢
    exact ⟨List.Forall₂.cons hx hrest.1, by simp [hrest.2]⟩

/-- An initialized n-dimensional particle has its position in bounds and a
velocity buffer of matching length, for arbitrary prior buffer contents. -/
theorem init_particlendim_fits (p : TParticle) (bounds : List (ℚ × ℚ))
    (coords : ℕ) (g : RNG) (hg : UnitStream g) (hwf : WFN bounds) :
    PosFits (bounds.take coords) (init_particlendim p bounds coords g).1 ∧
      (init_particlendim p bounds coords g).1.velocity.length =
        (bounds.take coords).length := by
  have h := initVP_fits (bounds.take coords) g hg (hwf.take coords)
  simp only [init_particlendim, PosFits]
  exact h

/-- The per-dimension update loop keeps the position in bounds and preserves
the buffer lengths. -/
theorem updVP_fits (rp rg : ℚ) :
    ∀ (bl : List (ℚ × ℚ)) (vs xs bps : List ℚ), WFN bl →
      List.Forall₂ (fun b x => InB b x) bl xs →
      vs.length = bl.length → bps.length = bl.length →
      List.Forall₂ (fun b x => InB b x) bl (updVP rp rg bl vs xs bps).2 ∧
        (updVP rp rg bl vs xs bps).1.length = bl.length := by
  intro bl
  induction bl with
  | nil =>
    intro vs xs bps _ hxs _ _
    cases hxs
    exact ⟨List.Forall₂.nil, by cases vs <;> cases bps <;> rfl⟩
  | cons b bs ih =>
    intro vs xs bps hwf hxs hv hbp
    cases hxs with
    | cons hx hxs' =>
      cases vs with
      | nil => simp at hv
      | cons v vs' =>
        cases bps with
        | nil => simp at hbp
        | cons bp bps' =>
          have hb : b.1 ≤ b.2 := hwf b (List.mem_cons_self b bs)
          have hrest := ih vs' _ bps'
            (fun c hc => hwf c (List.mem_cons_of_mem b hc)) hxs'
            (by simpa using hv) (by simpa using hbp)
          simp only [updVP]
          exact ⟨List.Forall₂.cons (clampPos_mem _ hb) hrest.1,
            by simp [hrest.2]⟩

/-- An updated n-dimensional particle stays in bounds with preserved buffer
lengths, given aligned buffers. -/
theorem update_particlendim_fits (p : TParticle) (bounds : List (ℚ × ℚ))
    (bp : List ℚ) (coords : ℕ) (g : RNG) (hwf : WFN bounds)
    (hp : PosFits (bounds.take coords) p)
    (hv : p.velocity.length = (bounds.take coords).length)
    (hbp : bp.length = (bounds.take coords).length) :
    PosFits (bounds.take coords) (update_particlendim p bounds bp coords g).1 ∧
      (update_particlendim p bounds bp coords g).1.velocity.length =
        (bounds.take coords).length := by
  have h := updVP_fits ((0 + g.stream g.idx * (1 - 0)) * COEFF_CP)
    ((0 + g.stream (g.idx + 1) * (1 - 0)) * COEFF_CG) (bounds.take coords)
    p.velocity p.position bp (hwf.take coords) hp hv hbp
  simp only [update_particlendim, random_double, RNG.advance, PosFits]
  exact h

/-- The evaluation step never moves a particle (position and velocity are
untouched); the global best position is either kept or set to the evaluated
particle's position. -/
theorem evalParticlendim_shape (f : List ℚ → ℚ) (fit : ℚ → ℚ → Bool)
    (first : Bool) (p : TParticle) (best : GBest (List ℚ)) :
    ((evalParticlendim f fit first p best).1.position = p.position ∧
      (evalParticlendim f fit first p best).1.velocity = p.velocity) ∧
    ((evalParticlendim f fit first p best).2.pos = best.pos ∨
      (evalParticlendim f fit first p best).2.pos = p.position) := by
  simp only [evalParticlendim]
  split_ifs <;> simp

/-- The n-dimensional evaluation loop preserves the shape invariant. -/
theorem evalSwarmN_shape (f : List ℚ → ℚ) (fit : ℚ → ℚ → Bool) (first : Bool)
    (bl : List (ℚ × ℚ)) :
    ∀ (l : List TParticle) (best : GBest (List ℚ)),
      (∀ p ∈ l, PosFits bl p ∧ p.velocity.length = bl.length) →
      best.pos.length = bl.length →
      (∀ p ∈ (evalSwarmN f fit first l best).1,
          PosFits bl p ∧ p.velocity.length = bl.length) ∧
        (evalSwarmN f fit first l best).2.pos.length = bl.length := by
  intro l
  induction l with
  | nil => intro best _ hb; exact ⟨by simp [evalSwarmN], hb⟩
  | cons q qs ih =>
    intro best hl hb
    have hq := hl q (List.mem_cons_self q qs)
    have hsh := evalParticlendim_shape f fit first q best
    have hq' : PosFits bl (evalParticlendim f fit first q best).1 ∧
        (evalParticlendim f fit first q best).1.velocity.length = bl.length := by
      constructor
      · simpa only [PosFits, hsh.1.1] using hq.1
      · rw [hsh.1.2]; exact hq.2
    have hb' : (evalParticlendim f fit first q best).2.pos.length = bl.length := by
      rcases hsh.2 with h | h
      · rw [h]; exact hb
      · rw [h]; exact (List.Forall₂.length_eq hq.1).symm
    have hrest := ih (evalParticlendim f fit first q best).2
      (fun p hp => hl p (List.mem_cons_of_mem q hp)) hb'
    refine ⟨?_, hrest.2⟩
    intro p hp
    simp only [evalSwarmN, List.mem_cons] at hp
    rcases hp with hp | hp
    · subst hp; exact hq'
    · exact hrest.1 p hp

/-- The n-dimensional update loop keeps every particle in bounds with
preserved buffer lengths. -/
theorem updateSwarmN_shape (bounds : List (ℚ × ℚ)) (bp : List ℚ) (coords : ℕ)
    (hwf : WFN bounds) (hbp : bp.length = (bounds.take coords).length) :
    ∀ (l : List TParticle) (g : RNG),
      (∀ p ∈ l, PosFits (bounds.take coords) p ∧
        p.velocity.length = (bounds.take coords).length) →
      ∀ p ∈ (updateSwarmN bounds bp coords l g).1,
        PosFits (bounds.take coords) p ∧
          p.velocity.length = (bounds.take coords).length := by
  intro l
  induction l with
  | nil => intro g _ p hp; simp [updateSwarmN] at hp
  | cons q qs ih =>
    intro g hl p hp
    have hq := hl q (List.mem_cons_self q qs)
    simp only [updateSwarmN, List.mem_cons] at hp
    rcases hp with hp | hp
    · subst hp
      exact update_particlendim_fits q bounds bp coords g hwf hq.1 hq.2 hbp
    · exact ih _ (fun r hr => hl r (List.mem_cons_of_mem q hr)) p hp

/-- One n-dimensional iteration preserves the shape invariant. -/
theorem iterN_shape (f : List ℚ → ℚ) (fit : ℚ → ℚ → Bool)
    (bounds : List (ℚ × ℚ)) (coords : ℕ) (first : Bool) (st : StateN)
    (hwf : WFN bounds) (h : ShapeN (bounds.take coords) st) :
    ShapeN (bounds.take coords) (iterN f fit bounds coords first st) := by
  have he := evalSwarmN_shape f fit first (bounds.take coords) st.swarm st.best
    h.1 h.2
  refine ⟨?_, he.2⟩
  intro p hp
  exact updateSwarmN_shape bounds _ coords hwf he.2 _ _ he.1 p hp

/-- The n-dimensional iteration loop preserves the shape invariant. -/
theorem runItersN_shape (f : List ℚ → ℚ) (fit : ℚ → ℚ → Bool)
    (bounds : List (ℚ × ℚ)) (coords : ℕ) (hwf : WFN bounds) :
    ∀ (n i : ℕ) (st : StateN), ShapeN (bounds.take coords) st →
      ShapeN (bounds.take coords) (runItersN f fit bounds coords n i st) := by
  intro n
  induction n with
  | zero => intro i st h; exact h
  | succ m ih =>
    intro i st h
    exact ih (i + 1) _ (iterN_shape f fit bounds coords (i == 0) st hwf h)

/-- The interleaved initialization draws only advance the cursor: the stream
itself is unchanged. -/
theorem initVP_stream :
    ∀ (bl : List (ℚ × ℚ)) (g : RNG), (initVP bl g).2.2.stream = g.stream := by
  intro bl
  induction bl with
  | nil => intro g; rfl
  | cons b bs ih => intro g; exact ih ((g.advance 1).advance 1)

/-- Every particle of an initialized n-dimensional swarm is in bounds with a
velocity buffer of matching length. -/
theorem initSwarmN_shape (bounds : List (ℚ × ℚ)) (coords : ℕ)
    (hwf : WFN bounds) :
    ∀ (l : List TParticle) (g : RNG), UnitStream g →
      ∀ p ∈ (initSwarmN bounds coords l g).1,
        PosFits (bounds.take coords) p ∧
          p.velocity.length = (bounds.take coords).length := by
  intro l
  induction l with
  | nil => intro g _ p hp; simp [initSwarmN] at hp
  | cons q qs ih =>
    intro g hg p hp
    have hg' : UnitStream (init_particlendim q bounds coords g).2 := by
      intro n
      have hs : (init_particlendim q bounds coords g).2.stream = g.stream := by
        simp only [init_particlendim]
        exact initVP_stream _ g
      rw [hs]
      exact hg n
    simp only [initSwarmN, List.mem_cons] at hp
    rcases hp with hp | hp
    · subst hp; exact init_particlendim_fits q bounds coords g hg hwf
    · exact ih _ hg' p hp

/-- Claim C1 — the bounds invariant: for every run of `pso3dim`, `psondim`,
`pso3dim_static` and `pso3dim_static_opt` with well-formed bounds
(`min_d ≤ max_d` in every dimension) and draws in `[0,1]`, every particle's
position satisfies `min_d ≤ position[d] ≤ max_d` in every dimension at every
observable point.  `max_iter` is universally quantified, so the final state
of a run of `k` iterations — which is exactly the state after the `k`-th
per-iteration update of any longer run, and for `k = 0` the state right
after initialization — is in bounds for every `k`, every particle count and
arbitrary buffer garbage.  (For `psondim`, `bestPos0N` is the `malloc`ed
best-position buffer, whose size — not contents — is `coords` doubles, as in
the C code.) -/
theorem bounds_invariant_all_runs (f3 : ℚ → ℚ → ℚ) (bounds : Bounds2)
    (fit : ℚ → ℚ → Bool) (swarm0 : List TParticle3Dim) (max_iter : ℕ)
    (bestPos0 : ℚ × ℚ) (g : RNG) (fN : List ℚ → ℚ)
    (boundsN : List (ℚ × ℚ)) (dims : ℕ) (swarmN : List TParticle)
    (bestPos0N : List ℚ) (junk : TParticle3Dim) (hg : UnitStream g)
    (hwf2 : WF2 bounds) (hwfN : WFN boundsN)
    (hbp : bestPos0N.length =
      (boundsN.take ((dims + 2 ^ 16 - 1) % 2 ^ 16)).length) :
    AllInB3 bounds (pso3dimRun f3 bounds fit swarm0 max_iter bestPos0 g) ∧
    AllInBN (boundsN.take ((dims + 2 ^ 16 - 1) % 2 ^ 16))
      (psondimRun fN boundsN dims fit swarmN max_iter bestPos0N g) ∧
    AllInB3 bounds (pso3dim_staticRun f3 bounds fit max_iter junk g) ∧
    AllInB3 bounds (pso3dim_static_optRun f3 bounds fit max_iter junk g) := by
  have h3 : ∀ (sw : List TParticle3Dim) (bp0 : ℚ × ℚ),
      AllInB3 bounds (runIters3 f3 fit bounds max_iter 0
        ⟨(initSwarm3 bounds sw g).1, ⟨bp0, DBL_MAX, []⟩,
          (initSwarm3 bounds sw g).2⟩) := by
    intro sw bp0
    refine runIters3_inb f3 fit bounds hwf2 max_iter 0 _ ?_
    intro p hp
    exact initSwarm3_inb bounds hwf2 sw g hg p hp
  have hN : AllInBN (boundsN.take ((dims + 2 ^ 16 - 1) % 2 ^ 16))
      (psondimRun fN boundsN dims fit swarmN max_iter bestPos0N g) := by
    have hshape := runItersN_shape fN fit boundsN ((dims + 2 ^ 16 - 1) % 2 ^ 16)
      hwfN max_iter 0
      ⟨(initSwarmN boundsN ((dims + 2 ^ 16 - 1) % 2 ^ 16) swarmN g).1,
        ⟨bestPos0N, DBL_MAX, []⟩,
        (initSwarmN boundsN ((dims + 2 ^ 16 - 1) % 2 ^ 16) swarmN g).2⟩
      ⟨fun p hp => initSwarmN_shape boundsN _ hwfN swarmN g hg p hp, hbp⟩
    intro p hp
    exact (hshape.1 p hp).1
  refine ⟨h3 swarm0 bestPos0, hN, h3 _ (0, 0), ?_⟩
  have heq : pso3dim_static_optRun f3 bounds fit max_iter junk g =
      pso3dim_staticRun f3 bounds fit max_iter junk g := by
    simp [pso3dim_static_optRun, pso3dim_staticRun, initSwarmOpt_eq,
      runItersOpt_eq]
  rw [heq]
  exact h3 _ (0, 0)

/-- Claim C1 witness — a concrete instantiation: bounds `((0,1),(0,1))` resp.
`[(0,1)]`, the all-zero draw stream, one junk particle each, one iteration. -/
theorem bounds_invariant_all_runs_witness :
    AllInB3 ((0, 1), (0, 1))
      (pso3dimRun (fun x y => x + y) ((0, 1), (0, 1)) (fun a b => decide (a < b))
        [⟨(0, 0), (0, 0), (0, 0), 0⟩] 1 (0, 0) ⟨fun _ => 0, 0⟩) ∧
    AllInBN ([((0 : ℚ), (1 : ℚ))].take ((2 + 2 ^ 16 - 1) % 2 ^ 16))
      (psondimRun (fun xs => xs.headD 0) [(0, 1)] 2 (fun a b => decide (a < b))
        [⟨[0], [0], [0], 0⟩] 1 [0] ⟨fun _ => 0, 0⟩) ∧
    AllInB3 ((0, 1), (0, 1))
      (pso3dim_staticRun (fun x y => x + y) ((0, 1), (0, 1))
        (fun a b => decide (a < b)) 1 ⟨(0, 0), (0, 0), (0, 0), 0⟩
        ⟨fun _ => 0, 0⟩) ∧
    AllInB3 ((0, 1), (0, 1))
      (pso3dim_static_optRun (fun x y => x + y) ((0, 1), (0, 1))
        (fun a b => decide (a < b)) 1 ⟨(0, 0), (0, 0), (0, 0), 0⟩
        ⟨fun _ => 0, 0⟩) :=
  bounds_invariant_all_runs (fun x y => x + y) ((0, 1), (0, 1))
    (fun a b => decide (a < b)) [⟨(0, 0), (0, 0), (0, 0), 0⟩] 1 (0, 0)
    ⟨fun _ => 0, 0⟩ (fun xs => xs.headD 0) [(0, 1)] 2 [⟨[0], [0], [0], 0⟩]
    [0] ⟨(0, 0), (0, 0), (0, 0), 0⟩
    (fun n => ⟨le_refl 0, zero_le_one⟩) ⟨zero_le_one, zero_le_one⟩
    (fun b hb => by
      simp only [List.mem_singleton] at hb
      subst hb
      exact zero_le_one)
    (by norm_num)

/- ## Monotonicity of the recorded global-best values -/

/-- Relation between a newly accepted global-best value and its predecessor:
the acceptance condition of the code — the new value beats the old one under
the fitness predicate, or the old one equals `DBL_MAX`. -/
def TraceStep (fit : ℚ → ℚ → Bool) (v vold : ℚ) : Prop :=
  fit v vold = true ∨ vold = DBL_MAX

/-- A trace of accepted values (newest first) is non-worsening: every
adjacent pair satisfies `TraceStep`. -/
def TraceOK (fit : ℚ → ℚ → Bool) (l : List ℚ) : Prop :=
  List.Chain' (TraceStep fit) l

/-- Invariant of the global-best record: `best_value` equals the most
recently accepted value (`DBL_MAX` when nothing was accepted yet) and the
trace so far is non-worsening. -/
def GInv {α : Type} (fit : ℚ → ℚ → Bool) (best : GBest α) : Prop :=
  best.val = best.log.headD DBL_MAX ∧ TraceOK fit best.log

/-- Accepting a value that satisfies the acceptance condition preserves the
global-best invariant. -/
theorem ginv_accept {α : Type} (fit : ℚ → ℚ → Bool) (best : GBest α)
    (pos : α) (value : ℚ)
    (hacc : fit value best.val = true ∨ best.val = DBL_MAX)
    (h : GInv fit best) :
    GInv fit (⟨pos, value, value :: best.log⟩ : GBest α) := by
  refine ⟨rfl, ?_⟩
  rcases hl : best.log with _ | ⟨hd, tl⟩
  · simp [TraceOK]
  · have hhd : best.val = hd := by rw [h.1, hl]; rfl
    have hchain : TraceOK fit (hd :: tl) := by rw [← hl]; exact h.2
    simp only [TraceOK, List.chain'_cons]
    refine ⟨?_, hchain⟩
    rw [← hhd]
    exact hacc

/-- One 2-dimensional evaluation step preserves the global-best invariant. -/
theorem evalParticle3_ginv (f : ℚ → ℚ → ℚ) (fit : ℚ → ℚ → Bool) (first : Bool)
    (p : TParticle3Dim) (best : GBest (ℚ × ℚ)) (h : GInv fit best) :
    GInv fit (evalParticle3 f fit first p best).2 := by
  cases h1 : fit (f p.position.1 p.position.2) p.best_val || first <;>
    cases h2 : fit (f p.position.1 p.position.2) best.val ||
      decide (best.val = DBL_MAX) <;>
    simp only [evalParticle3, h1, h2, Bool.false_eq_true, if_false, if_true]
  · exact h
  · exact h
  · exact h
  · refine ginv_accept fit best p.position _ ?_ h
    rcases Bool.or_eq_true_iff.mp h2 with hf | hd
    · exact Or.inl hf
    · exact Or.inr (of_decide_eq_true hd)

/-- The 2-dimensional evaluation loop preserves the global-best invariant. -/
theorem evalSwarm3_ginv (f : ℚ → ℚ → ℚ) (fit : ℚ → ℚ → Bool) (first : Bool) :
    ∀ (l : List TParticle3Dim) (best : GBest (ℚ × ℚ)), GInv fit best →
      GInv fit (evalSwarm3 f fit first l best).2 := by
  intro l
  induction l with
  | nil => intro best h; exact h
  | cons q qs ih =>
    intro best h
    exact ih _ (evalParticle3_ginv f fit first q best h)

/-- A full 2-dimensional iteration preserves the global-best invariant (the
update phase does not touch the record). -/
theorem iter3_ginv (f : ℚ → ℚ → ℚ) (fit : ℚ → ℚ → Bool) (bounds : Bounds2)
    (first : Bool) (st : State3) (h : GInv fit st.best) :
    GInv fit (iter3 f fit bounds first st).best :=
  evalSwarm3_ginv f fit first st.swarm st.best h

/-- The 2-dimensional iteration loop preserves the global-best invariant. -/
theorem runIters3_ginv (f : ℚ → ℚ → ℚ) (fit : ℚ → ℚ → Bool)
    (bounds : Bounds2) :
    ∀ (n i : ℕ) (st : State3), GInv fit st.best →
      GInv fit (runIters3 f fit bounds n i st).best := by
  intro n
  induction n with
  | zero => intro i st h; exact h
  | succ m ih =>
    intro i st h
    exact ih (i + 1) _ (iter3_ginv f fit bounds (i == 0) st h)

/-- One n-dimensional evaluation step preserves the global-best invariant. -/
theorem evalParticlendim_ginv (f : List ℚ → ℚ) (fit : ℚ → ℚ → Bool)
    (first : Bool) (p : TParticle) (best : GBest (List ℚ))
    (h : GInv fit best) :
    GInv fit (evalParticlendim f fit first p best).2 := by
  cases h1 : fit (f p.position) p.best_val || first <;>
    cases h2 : fit (f p.position) best.val || decide (best.val = DBL_MAX) <;>
    simp only [evalParticlendim, h1, h2, Bool.false_eq_true, if_false, if_true]
  · exact h
  · exact h
  · exact h
  · refine ginv_accept fit best p.position _ ?_ h
    rcases Bool.or_eq_true_iff.mp h2 with hf | hd
    · exact Or.inl hf
    · exact Or.inr (of_decide_eq_true hd)

/-- The n-dimensional evaluation loop preserves the global-best invariant. -/
theorem evalSwarmN_ginv (f : List ℚ → ℚ) (fit : ℚ → ℚ → Bool) (first : Bool) :
    ∀ (l : List TParticle) (best : GBest (List ℚ)), GInv fit best →
      GInv fit (evalSwarmN f fit first l best).2 := by
  intro l
  induction l with
  | nil => intro best h; exact h
  | cons q qs ih =>
    intro best h
    exact ih _ (evalParticlendim_ginv f fit first q best h)

/-- The n-dimensional iteration loop preserves the global-best invariant. -/
theorem runItersN_ginv (f : List ℚ → ℚ) (fit : ℚ → ℚ → Bool)
    (bounds : List (ℚ × ℚ)) (coords : ℕ) :
    ∀ (n i : ℕ) (st : StateN), GInv fit st.best →
      GInv fit (runItersN f fit bounds coords n i st).best := by
  intro n
  induction n with
  | zero => intro i st h; exact h
  | succ m ih =>
    intro i st h
    exact ih (i + 1) _
      (evalSwarmN_ginv f fit (i == 0) st.swarm st.best h)

/-- Claim C3 (amended) — in every run of the four entry points the sequence of
values recorded into the global best is non-worsening *up to the `DBL_MAX`
sentinel*: every newly accepted value `v` with previously recorded value
`v_old` satisfies `fitness(v, v_old)` **or `v_old = DBL_MAX`** (the numeric
"unset" test re-fires on a legitimately recorded `DBL_MAX`), or `v` is the
first value ever recorded (the last trace element has no predecessor). -/
theorem global_best_trace_nonworsening (f3 : ℚ → ℚ → ℚ) (bounds : Bounds2)
    (fit : ℚ → ℚ → Bool) (swarm0 : List TParticle3Dim) (max_iter : ℕ)
    (bestPos0 : ℚ × ℚ) (g : RNG) (fN : List ℚ → ℚ)
    (boundsN : List (ℚ × ℚ)) (dims : ℕ) (swarmN : List TParticle)
    (bestPos0N : List ℚ) (junk : TParticle3Dim) :
    TraceOK fit (pso3dimTrace f3 bounds fit swarm0 max_iter bestPos0 g) ∧
    TraceOK fit (psondimTrace fN boundsN dims fit swarmN max_iter bestPos0N g) ∧
    TraceOK fit (pso3dim_staticTrace f3 bounds fit max_iter junk g) ∧
    TraceOK fit (pso3dim_static_optTrace f3 bounds fit max_iter junk g) := by
  have hinit : ∀ (α : Type) (pos0 : α),
      GInv fit (⟨pos0, DBL_MAX, []⟩ : GBest α) := by
    intro α pos0
    exact ⟨rfl, List.chain'_nil⟩
  have h3 : ∀ (sw : List TParticle3Dim) (bp0 : ℚ × ℚ),
      TraceOK fit (runIters3 f3 fit bounds max_iter 0
        ⟨(initSwarm3 bounds sw g).1, ⟨bp0, DBL_MAX, []⟩,
          (initSwarm3 bounds sw g).2⟩).best.log := by
    intro sw bp0
    exact (runIters3_ginv f3 fit bounds max_iter 0 _ (hinit _ bp0)).2
  refine ⟨h3 swarm0 bestPos0, ?_, h3 _ (0, 0), ?_⟩
  · exact (runItersN_ginv fN fit boundsN _ max_iter 0 _ (hinit _ bestPos0N)).2
  · have heq : pso3dim_static_optRun f3 bounds fit max_iter junk g =
        pso3dim_staticRun f3 bounds fit max_iter junk g := by
      simp [pso3dim_static_optRun, pso3dim_staticRun, initSwarmOpt_eq,
        runItersOpt_eq]
    show TraceOK fit (pso3dim_static_optRun f3 bounds fit max_iter junk g).best.log
    rw [heq]
    exact h3 _ (0, 0)

/-- Claim C3 counterexample — the trace is *not* non-worsening under the
fitness predicate alone: with the maximizing fitness `b < a` and an objective
returning `DBL_MAX` at the first particle and `3` at the second, the recorded
sequence is `DBL_MAX` then `3`, and `fitness(3, DBL_MAX)` is false although
`3` is not the first recorded value. -/
theorem global_best_trace_claim_cex :
    ¬ List.Chain' (fun v vold => (fun a b : ℚ => decide (b < a)) v vold = true)
      (pso3dimTrace (fun x _ => if x = 0 then DBL_MAX else 3) ((0, 10), (0, 10))
        (fun a b => decide (b < a))
        [⟨(0, 0), (0, 0), (0, 0), 0⟩, ⟨(0, 0), (0, 0), (0, 0), 0⟩] 1 (0, 0)
        ⟨fun n => if n = 6 then 1 / 10 else 0, 0⟩) := by
  have htr : pso3dimTrace (fun x _ => if x = 0 then DBL_MAX else 3)
      ((0, 10), (0, 10)) (fun a b => decide (b < a))
      [⟨(0, 0), (0, 0), (0, 0), 0⟩, ⟨(0, 0), (0, 0), (0, 0), 0⟩] 1 (0, 0)
      ⟨fun n => if n = 6 then 1 / 10 else 0, 0⟩ = [3, DBL_MAX] := by
    norm_num [pso3dimTrace, pso3dimRun, initSwarm3, init_particle3dim,
      random_double, RNG.advance, runIters3, iter3, evalSwarm3, evalParticle3,
      updateSwarm3, update_particle3dim, clampPos, COEFF_W, COEFF_CP, COEFF_CG,
      DBL_MAX]
  rw [htr]
  simp only [List.chain'_cons, List.chain'_singleton, and_true]
  intro hcontra
  have hlt : DBL_MAX < 3 := of_decide_eq_true hcontra
  norm_num [DBL_MAX] at hlt

/- ## Personal-best dominance -/

/-- Relation `Dom fit a b`: value `a` dominates value `b` — it is preferred under the
fitness predicate or equal to it. -/
def Dom (fit : ℚ → ℚ → Bool) (a b : ℚ) : Prop := fit a b = true ∨ a = b

/-- Dominance transfers along an accepted improvement, given transitivity. -/
theorem Dom.lift {fit : ℚ → ℚ → Bool}
    (htrans : ∀ a b c, fit a b = true → fit b c = true → fit a c = true)
    {v a q : ℚ} (hva : fit v a = true) (haq : Dom fit a q) : Dom fit v q := by
  rcases haq with h | h
  · exact Or.inl (htrans v a q hva h)
  · rw [← h]; exact Or.inl hva

/-- Iteration-0 evaluation sweep (`first = true`): afterwards every processed
particle's personal best is dominated by the resulting global best, the
global best is a real objective value (not `DBL_MAX`) once any particle was
processed, and dominance over older values is preserved. -/
theorem evalSwarm3_dom_first (f : ℚ → ℚ → ℚ) (fit : ℚ → ℚ → Bool)
    (htrans : ∀ a b c, fit a b = true → fit b c = true → fit a c = true)
    (hconn : ∀ a b, fit a b = false → fit b a = true ∨ a = b)
    (hf : ∀ x y, f x y ≠ DBL_MAX) :
    ∀ (l : List TParticle3Dim) (best : GBest (ℚ × ℚ)),
      (∀ p ∈ (evalSwarm3 f fit true l best).1,
          Dom fit (evalSwarm3 f fit true l best).2.val p.best_val ∧
            p.best_val ≠ DBL_MAX) ∧
      (l ≠ [] → (evalSwarm3 f fit true l best).2.val ≠ DBL_MAX) ∧
      (∀ q, best.val ≠ DBL_MAX → Dom fit best.val q → q ≠ DBL_MAX →
          Dom fit (evalSwarm3 f fit true l best).2.val q) := by
  intro l
  induction l with
  | nil =>
    intro best
    refine ⟨?_, ?_, ?_⟩
    · intro p hp; simp [evalSwarm3] at hp
    · intro h; exact absurd rfl h
    · intro q _ hq _; exact hq
  | cons q qs ih =>
    intro best
    have hval : f q.position.1 q.position.2 ≠ DBL_MAX := hf _ _
    cases h2 : fit (f q.position.1 q.position.2) best.val ||
        decide (best.val = DBL_MAX) with
    | true =>
      have hstep : evalParticle3 f fit true q best =
          ({ q with
              best_val := f q.position.1 q.position.2
              best_pos := q.position },
            ⟨q.position, f q.position.1 q.position.2,
              f q.position.1 q.position.2 :: best.log⟩) := by
        simp [evalParticle3, h2]
      have ihr := ih ⟨q.position, f q.position.1 q.position.2,
        f q.position.1 q.position.2 :: best.log⟩
      refine ⟨?_, ?_, ?_⟩
      · intro p hp
        simp only [evalSwarm3, hstep, List.mem_cons] at hp ⊢
        rcases hp with hp | hp
        · subst hp
          refine ⟨?_, hval⟩
          exact ihr.2.2 _ hval (Or.inr rfl) hval
        · exact ihr.1 p hp
      · intro _
        simp only [evalSwarm3, hstep]
        rcases hqs : qs with _ | ⟨a, as⟩
        · simpa [evalSwarm3] using hval
        · exact (hqs ▸ ihr.2.1) (List.cons_ne_nil a as)
      · intro q0 hbv hdom hq0
        have hfit : fit (f q.position.1 q.position.2) best.val = true := by
          rcases Bool.or_eq_true_iff.mp h2 with h | h
          · exact h
          · exact absurd (of_decide_eq_true h) hbv
        simp only [evalSwarm3, hstep]
        exact ihr.2.2 q0 hval (Dom.lift htrans hfit hdom) hq0
    | false =>
      have hnor := Bool.or_eq_false_iff.mp h2
      have hbv : best.val ≠ DBL_MAX := of_decide_eq_false hnor.2
      have hdomv : Dom fit best.val (f q.position.1 q.position.2) := by
        rcases hconn _ _ hnor.1 with h | h
        · exact Or.inl h
        · exact Or.inr h.symm
      have hstep : evalParticle3 f fit true q best =
          ({ q with
              best_val := f q.position.1 q.position.2
              best_pos := q.position }, best) := by
        simp [evalParticle3, h2]
      have ihr := ih best
      refine ⟨?_, ?_, ?_⟩
      · intro p hp
        simp only [evalSwarm3, hstep, List.mem_cons] at hp ⊢
        rcases hp with hp | hp
        · subst hp
          exact ⟨ihr.2.2 _ hbv hdomv hval, hval⟩
        · exact ihr.1 p hp
      · intro _
        simp only [evalSwarm3, hstep]
        rcases hqs : qs with _ | ⟨a, as⟩
        · simpa [evalSwarm3] using hbv
        · exact (hqs ▸ ihr.2.1) (List.cons_ne_nil a as)
      · intro q0 hbv' hdom hq0
        simp only [evalSwarm3, hstep]
        exact ihr.2.2 q0 hbv' hdom hq0

/-- Later evaluation sweeps (`first = false`): if the global best dominates
every personal best on entry, it still does on exit. -/
theorem evalSwarm3_dom_later (f : ℚ → ℚ → ℚ) (fit : ℚ → ℚ → Bool)
    (htrans : ∀ a b c, fit a b = true → fit b c = true → fit a c = true)
    (hconn : ∀ a b, fit a b = false → fit b a = true ∨ a = b)
    (hf : ∀ x y, f x y ≠ DBL_MAX) :
    ∀ (l : List TParticle3Dim) (best : GBest (ℚ × ℚ)),
      best.val ≠ DBL_MAX →
      (∀ p ∈ l, Dom fit best.val p.best_val ∧ p.best_val ≠ DBL_MAX) →
      (∀ p ∈ (evalSwarm3 f fit false l best).1,
          Dom fit (evalSwarm3 f fit false l best).2.val p.best_val ∧
            p.best_val ≠ DBL_MAX) ∧
      (evalSwarm3 f fit false l best).2.val ≠ DBL_MAX ∧
      (∀ q, Dom fit best.val q → q ≠ DBL_MAX →
          Dom fit (evalSwarm3 f fit false l best).2.val q) := by
  intro l
  induction l with
  | nil =>
    intro best hbv _
    refine ⟨?_, hbv, ?_⟩
    · intro p hp; simp [evalSwarm3] at hp
    · intro q hq _; exact hq
  | cons q qs ih =>
    intro best hbv hin
    have hq := hin q (List.mem_cons_self q qs)
    have hintl : ∀ p ∈ qs, Dom fit best.val p.best_val ∧ p.best_val ≠ DBL_MAX :=
      fun p hp => hin p (List.mem_cons_of_mem q hp)
    cases h1 : fit (f q.position.1 q.position.2) q.best_val with
    | false =>
      have hstep : evalParticle3 f fit false q best = (q, best) := by
        simp [evalParticle3, h1]
      have ihr := ih best hbv hintl
      refine ⟨?_, ?_, ?_⟩
      · intro p hp
        simp only [evalSwarm3, hstep, List.mem_cons] at hp ⊢
        rcases hp with hp | hp
        · subst hp; exact ⟨ihr.2.2 _ hq.1 hq.2, hq.2⟩
        · exact ihr.1 p hp
      · simp only [evalSwarm3, hstep]
        exact ihr.2.1
      · intro q0 hdom hq0
        simp only [evalSwarm3, hstep]
        exact ihr.2.2 q0 hdom hq0
    | true =>
      have hval : f q.position.1 q.position.2 ≠ DBL_MAX := hf _ _
      cases h2 : fit (f q.position.1 q.position.2) best.val ||
          decide (best.val = DBL_MAX) with
      | true =>
        have hfit : fit (f q.position.1 q.position.2) best.val = true := by
          rcases Bool.or_eq_true_iff.mp h2 with h | h
          · exact h
          · exact absurd (of_decide_eq_true h) hbv
        have hstep : evalParticle3 f fit false q best =
            ({ q with
                best_val := f q.position.1 q.position.2
                best_pos := q.position },
              ⟨q.position, f q.position.1 q.position.2,
                f q.position.1 q.position.2 :: best.log⟩) := by
          simp [evalParticle3, h1, h2]
        have ihr := ih ⟨q.position, f q.position.1 q.position.2,
            f q.position.1 q.position.2 :: best.log⟩ hval
          (fun p hp => ⟨Dom.lift htrans hfit (hintl p hp).1, (hintl p hp).2⟩)
        refine ⟨?_, ?_, ?_⟩
        · intro p hp
          simp only [evalSwarm3, hstep, List.mem_cons] at hp ⊢
          rcases hp with hp | hp
          · subst hp
            exact ⟨ihr.2.2 _ (Or.inr rfl) hval, hval⟩
          · exact ihr.1 p hp
        · simp only [evalSwarm3, hstep]
          exact ihr.2.1
        · intro q0 hdom hq0
          simp only [evalSwarm3, hstep]
          exact ihr.2.2 q0 (Dom.lift htrans hfit hdom) hq0
      | false =>
        have hnor := Bool.or_eq_false_iff.mp h2
        have hdomv : Dom fit best.val (f q.position.1 q.position.2) := by
          rcases hconn _ _ hnor.1 with h | h
          · exact Or.inl h
          · exact Or.inr h.symm
        have hstep : evalParticle3 f fit false q best =
            ({ q with
                best_val := f q.position.1 q.position.2
                best_pos := q.position }, best) := by
          simp [evalParticle3, h1, h2]
        have ihr := ih best hbv hintl
        refine ⟨?_, ?_, ?_⟩
        · intro p hp
          simp only [evalSwarm3, hstep, List.mem_cons] at hp ⊢
          rcases hp with hp | hp
          · subst hp
            exact ⟨ihr.2.2 _ hdomv hval, hval⟩
          · exact ihr.1 p hp
        · simp only [evalSwarm3, hstep]
          exact ihr.2.1
        · intro q0 hdom hq0
          simp only [evalSwarm3, hstep]
          exact ihr.2.2 q0 hdom hq0

/-- The update step does not change a particle's personal best value. -/
theorem update_particle3dim_bestval (p : TParticle3Dim) (bounds : Bounds2)
    (bp : ℚ × ℚ) (g : RNG) :
    (update_particle3dim p bounds bp g).1.best_val = p.best_val := rfl

/-- Any property of the personal best values survives the update loop. -/
theorem updateSwarm3_bestvals (bounds : Bounds2) (bp : ℚ × ℚ) (P : ℚ → Prop) :
    ∀ (l : List TParticle3Dim) (g : RNG), (∀ p ∈ l, P p.best_val) →
      ∀ p ∈ (updateSwarm3 bounds bp l g).1, P p.best_val := by
  intro l
  induction l with
  | nil => intro g _ p hp; simp [updateSwarm3] at hp
  | cons q qs ih =>
    intro g hl p hp
    simp only [updateSwarm3, List.mem_cons] at hp
    rcases hp with hp | hp
    · subst hp
      rw [update_particle3dim_bestval]
      exact hl q (List.mem_cons_self q qs)
    · exact ih _ (fun r hr => hl r (List.mem_cons_of_mem q hr)) p hp

/-- The update loop of a nonempty swarm is nonempty. -/
theorem updateSwarm3_ne_nil (bounds : Bounds2) (bp : ℚ × ℚ)
    (q : TParticle3Dim) (qs : List TParticle3Dim) (g : RNG) :
    (updateSwarm3 bounds bp (q :: qs) g).1 ≠ [] := by
  simp [updateSwarm3]

/-- Dominance state at an iteration boundary: the global best dominates every
personal best, all personal bests are genuine objective values, and the
global best is a genuine value unless the swarm is empty. -/
def FInv3 (fit : ℚ → ℚ → Bool) (st : State3) : Prop :=
  (∀ p ∈ st.swarm, Dom fit st.best.val p.best_val ∧ p.best_val ≠ DBL_MAX) ∧
    (st.swarm = [] ∨ st.best.val ≠ DBL_MAX)

/-- Iteration 0 establishes the dominance invariant from the virgin state. -/
theorem iter3_dom_first (f : ℚ → ℚ → ℚ) (fit : ℚ → ℚ → Bool)
    (bounds : Bounds2)
    (htrans : ∀ a b c, fit a b = true → fit b c = true → fit a c = true)
    (hconn : ∀ a b, fit a b = false → fit b a = true ∨ a = b)
    (hf : ∀ x y, f x y ≠ DBL_MAX) (st : State3) :
    FInv3 fit (iter3 f fit bounds true st) := by
  have he := evalSwarm3_dom_first f fit htrans hconn hf st.swarm st.best
  constructor
  · intro p hp
    exact updateSwarm3_bestvals bounds _
      (fun v => Dom fit (evalSwarm3 f fit true st.swarm st.best).2.val v ∧
        v ≠ DBL_MAX) _ _ (fun r hr => he.1 r hr) p hp
  · rcases hsw : st.swarm with _ | ⟨a, as⟩
    · left
      simp [iter3, hsw, evalSwarm3, updateSwarm3]
    · right
      show (evalSwarm3 f fit true st.swarm st.best).2.val ≠ DBL_MAX
      exact he.2.1 (by simp [hsw])

/-- Later iterations preserve the dominance invariant. -/
theorem iter3_dom_later (f : ℚ → ℚ → ℚ) (fit : ℚ → ℚ → Bool)
    (bounds : Bounds2)
    (htrans : ∀ a b c, fit a b = true → fit b c = true → fit a c = true)
    (hconn : ∀ a b, fit a b = false → fit b a = true ∨ a = b)
    (hf : ∀ x y, f x y ≠ DBL_MAX) (st : State3) (h : FInv3 fit st) :
    FInv3 fit (iter3 f fit bounds false st) := by
  rcases hsw : st.swarm with _ | ⟨a, as⟩
  · constructor
    · intro p hp
      simp [iter3, hsw, evalSwarm3, updateSwarm3] at hp
    · left
      simp [iter3, hsw, evalSwarm3, updateSwarm3]
  · have hbv : st.best.val ≠ DBL_MAX := by
      rcases h.2 with hc | hc
      · rw [hsw] at hc; exact absurd hc (List.cons_ne_nil a as)
      · exact hc
    have he := evalSwarm3_dom_later f fit htrans hconn hf st.swarm st.best hbv
      h.1
    constructor
    · intro p hp
      exact updateSwarm3_bestvals bounds _
        (fun v => Dom fit (evalSwarm3 f fit false st.swarm st.best).2.val v ∧
          v ≠ DBL_MAX) _ _ (fun r hr => he.1 r hr) p hp
    · right
      exact he.2.1

/-- The iteration loop started at counter `i ≥ 1` preserves the dominance
invariant. -/
theorem runIters3_dom (f : ℚ → ℚ → ℚ) (fit : ℚ → ℚ → Bool) (bounds : Bounds2)
    (htrans : ∀ a b c, fit a b = true → fit b c = true → fit a c = true)
    (hconn : ∀ a b, fit a b = false → fit b a = true ∨ a = b)
    (hf : ∀ x y, f x y ≠ DBL_MAX) :
    ∀ (n i : ℕ), 1 ≤ i → ∀ (st : State3), FInv3 fit st →
      FInv3 fit (runIters3 f fit bounds n i st) := by
  intro n
  induction n with
  | zero => intro i _ st h; exact h
  | succ m ih =>
    intro i hi st h
    have hne : (i == 0) = false :=
      beq_eq_false_iff_ne.mpr (Nat.one_le_iff_ne_zero.mp hi)
    rw [runIters3, hne]
    exact ih (i + 1) (Nat.le_succ_of_le hi) _
      (iter3_dom_later f fit bounds htrans hconn hf st h)

/-- Iteration-0 evaluation sweep of `psondim` (`first = true`): mirror of
`evalSwarm3_dom_first`. -/
theorem evalSwarmN_dom_first (f : List ℚ → ℚ) (fit : ℚ → ℚ → Bool)
    (htrans : ∀ a b c, fit a b = true → fit b c = true → fit a c = true)
    (hconn : ∀ a b, fit a b = false → fit b a = true ∨ a = b)
    (hf : ∀ xs, f xs ≠ DBL_MAX) :
    ∀ (l : List TParticle) (best : GBest (List ℚ)),
      (∀ p ∈ (evalSwarmN f fit true l best).1,
          Dom fit (evalSwarmN f fit true l best).2.val p.best_val ∧
            p.best_val ≠ DBL_MAX) ∧
      (l ≠ [] → (evalSwarmN f fit true l best).2.val ≠ DBL_MAX) ∧
      (∀ q, best.val ≠ DBL_MAX → Dom fit best.val q → q ≠ DBL_MAX →
          Dom fit (evalSwarmN f fit true l best).2.val q) := by
  intro l
  induction l with
  | nil =>
    intro best
    refine ⟨?_, ?_, ?_⟩
    · intro p hp; simp [evalSwarmN] at hp
    · intro h; exact absurd rfl h
    · intro q _ hq _; exact hq
  | cons q qs ih =>
    intro best
    have hval : f q.position ≠ DBL_MAX := hf _
    cases h2 : fit (f q.position) best.val || decide (best.val = DBL_MAX) with
    | true =>
      have hstep : evalParticlendim f fit true q best =
          ({ q with
              best_val := f q.position
              best_pos := q.position },
            ⟨q.position, f q.position, f q.position :: best.log⟩) := by
        simp [evalParticlendim, h2]
      have ihr := ih ⟨q.position, f q.position, f q.position :: best.log⟩
      refine ⟨?_, ?_, ?_⟩
      · intro p hp
        simp only [evalSwarmN, hstep, List.mem_cons] at hp ⊢
        rcases hp with hp | hp
        · subst hp
          exact ⟨ihr.2.2 _ hval (Or.inr rfl) hval, hval⟩
        · exact ihr.1 p hp
      · intro _
        simp only [evalSwarmN, hstep]
        rcases hqs : qs with _ | ⟨a, as⟩
        · simpa [evalSwarmN] using hval
        · exact (hqs ▸ ihr.2.1) (List.cons_ne_nil a as)
      · intro q0 hbv hdom hq0
        have hfit : fit (f q.position) best.val = true := by
          rcases Bool.or_eq_true_iff.mp h2 with h | h
          · exact h
          · exact absurd (of_decide_eq_true h) hbv
        simp only [evalSwarmN, hstep]
        exact ihr.2.2 q0 hval (Dom.lift htrans hfit hdom) hq0
    | false =>
      have hnor := Bool.or_eq_false_iff.mp h2
      have hbv : best.val ≠ DBL_MAX := of_decide_eq_false hnor.2
      have hdomv : Dom fit best.val (f q.position) := by
        rcases hconn _ _ hnor.1 with h | h
        · exact Or.inl h
        · exact Or.inr h.symm
      have hstep : evalParticlendim f fit true q best =
          ({ q with
              best_val := f q.position
              best_pos := q.position }, best) := by
        simp [evalParticlendim, h2]
      have ihr := ih best
      refine ⟨?_, ?_, ?_⟩
      · intro p hp
        simp only [evalSwarmN, hstep, List.mem_cons] at hp ⊢
        rcases hp with hp | hp
        · subst hp
          exact ⟨ihr.2.2 _ hbv hdomv hval, hval⟩
        · exact ihr.1 p hp
      · intro _
        simp only [evalSwarmN, hstep]
        rcases hqs : qs with _ | ⟨a, as⟩
        · simpa [evalSwarmN] using hbv
        · exact (hqs ▸ ihr.2.1) (List.cons_ne_nil a as)
      · intro q0 hbv' hdom hq0
        simp only [evalSwarmN, hstep]
        exact ihr.2.2 q0 hbv' hdom hq0

/-- Later evaluation sweeps of `psondim` (`first = false`): mirror of
`evalSwarm3_dom_later`. -/
theorem evalSwarmN_dom_later (f : List ℚ → ℚ) (fit : ℚ → ℚ → Bool)
    (htrans : ∀ a b c, fit a b = true → fit b c = true → fit a c = true)
    (hconn : ∀ a b, fit a b = false → fit b a = true ∨ a = b)
    (hf : ∀ xs, f xs ≠ DBL_MAX) :
    ∀ (l : List TParticle) (best : GBest (List ℚ)),
      best.val ≠ DBL_MAX →
      (∀ p ∈ l, Dom fit best.val p.best_val ∧ p.best_val ≠ DBL_MAX) →
      (∀ p ∈ (evalSwarmN f fit false l best).1,
          Dom fit (evalSwarmN f fit false l best).2.val p.best_val ∧
            p.best_val ≠ DBL_MAX) ∧
      (evalSwarmN f fit false l best).2.val ≠ DBL_MAX ∧
      (∀ q, Dom fit best.val q → q ≠ DBL_MAX →
          Dom fit (evalSwarmN f fit false l best).2.val q) := by
  intro l
  induction l with
  | nil =>
    intro best hbv _
    refine ⟨?_, hbv, ?_⟩
    · intro p hp; simp [evalSwarmN] at hp
    · intro q hq _; exact hq
  | cons q qs ih =>
    intro best hbv hin
    have hq := hin q (List.mem_cons_self q qs)
    have hintl : ∀ p ∈ qs, Dom fit best.val p.best_val ∧ p.best_val ≠ DBL_MAX :=
      fun p hp => hin p (List.mem_cons_of_mem q hp)
    cases h1 : fit (f q.position) q.best_val with
    | false =>
      have hstep : evalParticlendim f fit false q best = (q, best) := by
        simp [evalParticlendim, h1]
      have ihr := ih best hbv hintl
      refine ⟨?_, ?_, ?_⟩
      · intro p hp
        simp only [evalSwarmN, hstep, List.mem_cons] at hp ⊢
        rcases hp with hp | hp
        · subst hp; exact ⟨ihr.2.2 _ hq.1 hq.2, hq.2⟩
        · exact ihr.1 p hp
      · simp only [evalSwarmN, hstep]
        exact ihr.2.1
      · intro q0 hdom hq0
        simp only [evalSwarmN, hstep]
        exact ihr.2.2 q0 hdom hq0
    | true =>
      have hval : f q.position ≠ DBL_MAX := hf _
      cases h2 : fit (f q.position) best.val || decide (best.val = DBL_MAX) with
      | true =>
        have hfit : fit (f q.position) best.val = true := by
          rcases Bool.or_eq_true_iff.mp h2 with h | h
          · exact h
          · exact absurd (of_decide_eq_true h) hbv
        have hstep : evalParticlendim f fit false q best =
            ({ q with
                best_val := f q.position
                best_pos := q.position },
              ⟨q.position, f q.position, f q.position :: best.log⟩) := by
          simp [evalParticlendim, h1, h2]
        have ihr := ih ⟨q.position, f q.position, f q.position :: best.log⟩ hval
          (fun p hp => ⟨Dom.lift htrans hfit (hintl p hp).1, (hintl p hp).2⟩)
        refine ⟨?_, ?_, ?_⟩
        · intro p hp
          simp only [evalSwarmN, hstep, List.mem_cons] at hp ⊢
          rcases hp with hp | hp
          · subst hp
            exact ⟨ihr.2.2 _ (Or.inr rfl) hval, hval⟩
          · exact ihr.1 p hp
        · simp only [evalSwarmN, hstep]
          exact ihr.2.1
        · intro q0 hdom hq0
          simp only [evalSwarmN, hstep]
          exact ihr.2.2 q0 (Dom.lift htrans hfit hdom) hq0
      | false =>
        have hnor := Bool.or_eq_false_iff.mp h2
        have hdomv : Dom fit best.val (f q.position) := by
          rcases hconn _ _ hnor.1 with h | h
          · exact Or.inl h
          · exact Or.inr h.symm
        have hstep : evalParticlendim f fit false q best =
            ({ q with
                best_val := f q.position
                best_pos := q.position }, best) := by
          simp [evalParticlendim, h1, h2]
        have ihr := ih best hbv hintl
        refine ⟨?_, ?_, ?_⟩
        · intro p hp
          simp only [evalSwarmN, hstep, List.mem_cons] at hp ⊢
          rcases hp with hp | hp
          · subst hp
            exact ⟨ihr.2.2 _ hdomv hval, hval⟩
          · exact ihr.1 p hp
        · simp only [evalSwarmN, hstep]
          exact ihr.2.1
        · intro q0 hdom hq0
          simp only [evalSwarmN, hstep]
          exact ihr.2.2 q0 hdom hq0

/-- The n-dimensional update step does not change the personal best value. -/
theorem update_particlendim_bestval (p : TParticle) (bounds : List (ℚ × ℚ))
    (bp : List ℚ) (coords : ℕ) (g : RNG) :
    (update_particlendim p bounds bp coords g).1.best_val = p.best_val := rfl

/-- Any property of the personal best values survives the n-dimensional
update loop. -/
theorem updateSwarmN_bestvals (bounds : List (ℚ × ℚ)) (bp : List ℚ)
    (coords : ℕ) (P : ℚ → Prop) :
    ∀ (l : List TParticle) (g : RNG), (∀ p ∈ l, P p.best_val) →
      ∀ p ∈ (updateSwarmN bounds bp coords l g).1, P p.best_val := by
  intro l
  induction l with
  | nil => intro g _ p hp; simp [updateSwarmN] at hp
  | cons q qs ih =>
    intro g hl p hp
    simp only [updateSwarmN, List.mem_cons] at hp
    rcases hp with hp | hp
    · subst hp
      rw [update_particlendim_bestval]
      exact hl q (List.mem_cons_self q qs)
    · exact ih _ (fun r hr => hl r (List.mem_cons_of_mem q hr)) p hp

/-- Dominance state at an n-dimensional iteration boundary. -/
def FInvN (fit : ℚ → ℚ → Bool) (st : StateN) : Prop :=
  (∀ p ∈ st.swarm, Dom fit st.best.val p.best_val ∧ p.best_val ≠ DBL_MAX) ∧
    (st.swarm = [] ∨ st.best.val ≠ DBL_MAX)

/-- Iteration 0 of `psondim` establishes the dominance invariant. -/
theorem iterN_dom_first (f : List ℚ → ℚ) (fit : ℚ → ℚ → Bool)
    (bounds : List (ℚ × ℚ)) (coords : ℕ)
    (htrans : ∀ a b c, fit a b = true → fit b c = true → fit a c = true)
    (hconn : ∀ a b, fit a b = false → fit b a = true ∨ a = b)
    (hf : ∀ xs, f xs ≠ DBL_MAX) (st : StateN) :
    FInvN fit (iterN f fit bounds coords true st) := by
  have he := evalSwarmN_dom_first f fit htrans hconn hf st.swarm st.best
  constructor
  · intro p hp
    exact updateSwarmN_bestvals bounds _ coords
      (fun v => Dom fit (evalSwarmN f fit true st.swarm st.best).2.val v ∧
        v ≠ DBL_MAX) _ _ (fun r hr => he.1 r hr) p hp
  · rcases hsw : st.swarm with _ | ⟨a, as⟩
    · left
      simp [iterN, hsw, evalSwarmN, updateSwarmN]
    · right
      show (evalSwarmN f fit true st.swarm st.best).2.val ≠ DBL_MAX
      exact he.2.1 (by simp [hsw])

/-- Later iterations of `psondim` preserve the dominance invariant. -/
theorem iterN_dom_later (f : List ℚ → ℚ) (fit : ℚ → ℚ → Bool)
    (bounds : List (ℚ × ℚ)) (coords : ℕ)
    (htrans : ∀ a b c, fit a b = true → fit b c = true → fit a c = true)
    (hconn : ∀ a b, fit a b = false → fit b a = true ∨ a = b)
    (hf : ∀ xs, f xs ≠ DBL_MAX) (st : StateN) (h : FInvN fit st) :
    FInvN fit (iterN f fit bounds coords false st) := by
  rcases hsw : st.swarm with _ | ⟨a, as⟩
  · constructor
    · intro p hp
      simp [iterN, hsw, evalSwarmN, updateSwarmN] at hp
    · left
      simp [iterN, hsw, evalSwarmN, updateSwarmN]
  · have hbv : st.best.val ≠ DBL_MAX := by
      rcases h.2 with hc | hc
      · rw [hsw] at hc; exact absurd hc (List.cons_ne_nil a as)
      · exact hc
    have he := evalSwarmN_dom_later f fit htrans hconn hf st.swarm st.best hbv
      h.1
    constructor
    · intro p hp
      exact updateSwarmN_bestvals bounds _ coords
        (fun v => Dom fit (evalSwarmN f fit false st.swarm st.best).2.val v ∧
          v ≠ DBL_MAX) _ _ (fun r hr => he.1 r hr) p hp
    · right
      exact he.2.1

/-- The n-dimensional iteration loop started at counter `i ≥ 1` preserves the
dominance invariant. -/
theorem runItersN_dom (f : List ℚ → ℚ) (fit : ℚ → ℚ → Bool)
    (bounds : List (ℚ × ℚ)) (coords : ℕ)
    (htrans : ∀ a b c, fit a b = true → fit b c = true → fit a c = true)
    (hconn : ∀ a b, fit a b = false → fit b a = true ∨ a = b)
    (hf : ∀ xs, f xs ≠ DBL_MAX) :
    ∀ (n i : ℕ), 1 ≤ i → ∀ (st : StateN), FInvN fit st →
      FInvN fit (runItersN f fit bounds coords n i st) := by
  intro n
  induction n with
  | zero => intro i _ st h; exact h
  | succ m ih =>
    intro i hi st h
    have hne : (i == 0) = false :=
      beq_eq_false_iff_ne.mpr (Nat.one_le_iff_ne_zero.mp hi)
    rw [runItersN, hne]
    exact ih (i + 1) (Nat.le_succ_of_le hi) _
      (iterN_dom_later f fit bounds coords htrans hconn hf st h)

/-- The global best of a 2-dimensional run state dominates every particle's
recorded personal best (preferred under the fitness predicate, or equal). -/
def GDom3 (fit : ℚ → ℚ → Bool) (st : State3) : Prop :=
  ∀ p ∈ st.swarm, fit st.best.val p.best_val = true ∨ st.best.val = p.best_val

/-- The global best of an n-dimensional run state dominates every particle's
recorded personal best. -/
def GDomN (fit : ℚ → ℚ → Bool) (st : StateN) : Prop :=
  ∀ p ∈ st.swarm, fit st.best.val p.best_val = true ∨ st.best.val = p.best_val

/-- Claim C4 (amended) — personal-best dominance: in every run with at least
one completed iteration (so that every particle has a recorded personal
best), a *transitive and total* fitness predicate, and an objective that
never attains `DBL_MAX`, the recorded global best dominates every particle's
recorded personal best: `fitness(g, p)` holds or `g = p` — for `pso3dim`,
`psondim` and both static variants, at every iteration boundary (`max_iter`
is universally quantified).  Both extra hypotheses are necessary: without
them the code's numeric `DBL_MAX` sentinel or a non-order predicate breaks
the invariant (see the counterexample). -/
theorem global_best_dominates_personal (f3 : ℚ → ℚ → ℚ) (bounds : Bounds2)
    (fit : ℚ → ℚ → Bool) (swarm0 : List TParticle3Dim) (max_iter : ℕ)
    (bestPos0 : ℚ × ℚ) (g : RNG) (fN : List ℚ → ℚ)
    (boundsN : List (ℚ × ℚ)) (dims : ℕ) (swarmN : List TParticle)
    (bestPos0N : List ℚ) (junk : TParticle3Dim)
    (htrans : ∀ a b c, fit a b = true → fit b c = true → fit a c = true)
    (hconn : ∀ a b, fit a b = false → fit b a = true ∨ a = b)
    (hf3 : ∀ x y, f3 x y ≠ DBL_MAX) (hfN : ∀ xs, fN xs ≠ DBL_MAX)
    (hk : 1 ≤ max_iter) :
    GDom3 fit (pso3dimRun f3 bounds fit swarm0 max_iter bestPos0 g) ∧
    GDomN fit (psondimRun fN boundsN dims fit swarmN max_iter bestPos0N g) ∧
    GDom3 fit (pso3dim_staticRun f3 bounds fit max_iter junk g) ∧
    GDom3 fit (pso3dim_static_optRun f3 bounds fit max_iter junk g) := by
  obtain ⟨m, rfl⟩ : ∃ m, max_iter = m + 1 :=
    ⟨max_iter - 1, (Nat.succ_pred_eq_of_pos hk).symm⟩
  have final3 : ∀ (sw : List TParticle3Dim) (bp0 : ℚ × ℚ),
      FInv3 fit (runIters3 f3 fit bounds (m + 1) 0
        ⟨(initSwarm3 bounds sw g).1, ⟨bp0, DBL_MAX, []⟩,
          (initSwarm3 bounds sw g).2⟩) := by
    intro sw bp0
    show FInv3 fit (runIters3 f3 fit bounds m 1 (iter3 f3 fit bounds true
      ⟨(initSwarm3 bounds sw g).1, ⟨bp0, DBL_MAX, []⟩,
        (initSwarm3 bounds sw g).2⟩))
    exact runIters3_dom f3 fit bounds htrans hconn hf3 m 1 (le_refl 1) _
      (iter3_dom_first f3 fit bounds htrans hconn hf3 _)
  have finalN : FInvN fit
      (psondimRun fN boundsN dims fit swarmN (m + 1) bestPos0N g) := by
    show FInvN fit (runItersN fN fit boundsN _ m 1 (iterN fN fit boundsN _ true _))
    exact runItersN_dom fN fit boundsN _ htrans hconn hfN m 1 (le_refl 1) _
      (iterN_dom_first fN fit boundsN _ htrans hconn hfN _)
  refine ⟨?_, ?_, ?_, ?_⟩
  · intro p hp; exact ((final3 swarm0 bestPos0).1 p hp).1
  · intro p hp; exact (finalN.1 p hp).1
  · intro p hp; exact ((final3 _ (0, 0)).1 p hp).1
  · have heq : pso3dim_static_optRun f3 bounds fit (m + 1) junk g =
        pso3dim_staticRun f3 bounds fit (m + 1) junk g := by
      simp [pso3dim_static_optRun, pso3dim_staticRun, initSwarmOpt_eq,
        runItersOpt_eq]
    rw [heq]
    intro p hp; exact ((final3 _ (0, 0)).1 p hp).1

/-- Claim C4 witness — concrete instantiation with the strict order `a < b`
(minimization), the constant objective `1` and one iteration. -/
theorem global_best_dominates_personal_witness :
    GDom3 (fun a b => decide (a < b))
      (pso3dimRun (fun _ _ => 1) ((0, 1), (0, 1)) (fun a b => decide (a < b))
        [⟨(0, 0), (0, 0), (0, 0), 0⟩] 1 (0, 0) ⟨fun _ => 0, 0⟩) ∧
    GDomN (fun a b => decide (a < b))
      (psondimRun (fun _ => 1) [(0, 1)] 2 (fun a b => decide (a < b))
        [⟨[0], [0], [0], 0⟩] 1 [0] ⟨fun _ => 0, 0⟩) ∧
    GDom3 (fun a b => decide (a < b))
      (pso3dim_staticRun (fun _ _ => 1) ((0, 1), (0, 1))
        (fun a b => decide (a < b)) 1 ⟨(0, 0), (0, 0), (0, 0), 0⟩
        ⟨fun _ => 0, 0⟩) ∧
    GDom3 (fun a b => decide (a < b))
      (pso3dim_static_optRun (fun _ _ => 1) ((0, 1), (0, 1))
        (fun a b => decide (a < b)) 1 ⟨(0, 0), (0, 0), (0, 0), 0⟩
        ⟨fun _ => 0, 0⟩) :=
  global_best_dominates_personal (fun _ _ => 1) ((0, 1), (0, 1))
    (fun a b => decide (a < b)) [⟨(0, 0), (0, 0), (0, 0), 0⟩] 1 (0, 0)
    ⟨fun _ => 0, 0⟩ (fun _ => 1) [(0, 1)] 2 [⟨[0], [0], [0], 0⟩] [0]
    ⟨(0, 0), (0, 0), (0, 0), 0⟩
    (fun a b c hab hbc =>
      decide_eq_true (lt_trans (of_decide_eq_true hab) (of_decide_eq_true hbc)))
    (fun a b h => by
      rcases lt_trichotomy b a with hl | he | hg
      · exact Or.inl (decide_eq_true hl)
      · exact Or.inr he.symm
      · exact absurd hg (of_decide_eq_false h))
    (fun x y => by norm_num [DBL_MAX])
    (fun xs => by norm_num [DBL_MAX])
    (le_refl 1)

/-- Claim C4 counterexample — the claim fails as stated, even for the genuine
strict total order `fitness a b = (b < a)` (maximization): with an objective
that returns `DBL_MAX` at the first particle's position and `3` at the
second's, after iteration 0 the recorded global best is `3` while the first
particle's recorded personal best is `DBL_MAX`, `fitness(3, DBL_MAX)` is
false, and `3 ≠ DBL_MAX` — the global best is worse than a personal best,
caused by the numeric `DBL_MAX` sentinel re-firing. -/
theorem global_best_dominance_cex :
    ((pso3dimRun (fun x _ => if x = 0 then DBL_MAX else 3) ((0, 8), (0, 8))
        (fun a b => decide (b < a))
        [⟨(0, 0), (0, 0), (0, 0), 0⟩, ⟨(0, 0), (0, 0), (0, 0), 0⟩] 1 (0, 0)
        ⟨fun n => if n = 6 then 1 / 8 else 0, 0⟩).swarm.map
        (fun p => p.best_val)) = [DBL_MAX, 3] ∧
    (pso3dimRun (fun x _ => if x = 0 then DBL_MAX else 3) ((0, 8), (0, 8))
        (fun a b => decide (b < a))
        [⟨(0, 0), (0, 0), (0, 0), 0⟩, ⟨(0, 0), (0, 0), (0, 0), 0⟩] 1 (0, 0)
        ⟨fun n => if n = 6 then 1 / 8 else 0, 0⟩).best.val = 3 ∧
    (fun a b : ℚ => decide (b < a)) 3 DBL_MAX = false ∧
    (3 : ℚ) ≠ DBL_MAX := by
  refine ⟨?_, ?_, ?_, ?_⟩
  · norm_num [pso3dimRun, initSwarm3, init_particle3dim, random_double,
      RNG.advance, runIters3, iter3, evalSwarm3, evalParticle3, updateSwarm3,
      update_particle3dim, clampPos, COEFF_W, COEFF_CP, COEFF_CG, DBL_MAX]
  · norm_num [pso3dimRun, initSwarm3, init_particle3dim, random_double,
      RNG.advance, runIters3, iter3, evalSwarm3, evalParticle3, updateSwarm3,
      update_particle3dim, clampPos, COEFF_W, COEFF_CP, COEFF_CG, DBL_MAX]
  · norm_num [DBL_MAX]
  · norm_num [DBL_MAX]

/- ## `psondim` at 2 coordinates vs `pso3dim` -/

/-- Correspondence between a 2-dimensional particle and an n-dimensional
particle with 2 coordinates.  `best_pos` is deliberately not related: the
n-dimensional initializer leaves it as garbage, and no step of either
algorithm ever reads it. -/
def PRel (p3 : TParticle3Dim) (pn : TParticle) : Prop :=
  pn.velocity = [p3.velocity.1, p3.velocity.2] ∧
  pn.position = [p3.position.1, p3.position.2] ∧
  pn.best_val = p3.best_val

/-- Correspondence between the global-best records. -/
def BRel (b3 : GBest (ℚ × ℚ)) (bN : GBest (List ℚ)) : Prop :=
  bN.pos = [b3.pos.1, b3.pos.2] ∧ bN.val = b3.val ∧ bN.log = b3.log

/-- Correspondence between full run states (same generator). -/
def SRel (st3 : State3) (stN : StateN) : Prop :=
  List.Forall₂ PRel st3.swarm stN.swarm ∧ BRel st3.best stN.best ∧
    stN.rng = st3.rng

/-- The update steps of the two variants correspond: same draws, same new
velocity and position, same resulting generator. -/
theorem update_equiv (p3 : TParticle3Dim) (pn : TParticle) (bounds : Bounds2)
    (bp : ℚ × ℚ) (g : RNG) (h : PRel p3 pn) :
    PRel (update_particle3dim p3 bounds bp g).1
      (update_particlendim pn [bounds.1, bounds.2] [bp.1, bp.2] 2 g).1 ∧
    (update_particlendim pn [bounds.1, bounds.2] [bp.1, bp.2] 2 g).2 =
      (update_particle3dim p3 bounds bp g).2 := by
  obtain ⟨hv, hx, hb⟩ := h
  refine ⟨⟨?_, ?_, ?_⟩, ?_⟩ <;>
    simp [update_particlendim, update_particle3dim, updVP, random_double,
      RNG.advance, hv, hx, hb, List.take]

/-- The evaluation steps of the two variants correspond. -/
theorem eval_equiv (f3 : ℚ → ℚ → ℚ) (fN : List ℚ → ℚ) (fit : ℚ → ℚ → Bool)
    (first : Bool) (p3 : TParticle3Dim) (pn : TParticle)
    (b3 : GBest (ℚ × ℚ)) (bN : GBest (List ℚ))
    (hfeq : ∀ x y, fN [x, y] = f3 x y) (hp : PRel p3 pn) (hb : BRel b3 bN) :
    PRel (evalParticle3 f3 fit first p3 b3).1
      (evalParticlendim fN fit first pn bN).1 ∧
    BRel (evalParticle3 f3 fit first p3 b3).2
      (evalParticlendim fN fit first pn bN).2 := by
  obtain ⟨hv, hx, hbv⟩ := hp
  obtain ⟨hbp, hbval, hblog⟩ := hb
  have hval : fN pn.position = f3 p3.position.1 p3.position.2 := by
    rw [hx]; exact hfeq _ _
  cases h1 : fit (f3 p3.position.1 p3.position.2) p3.best_val || first with
  | false =>
    have h1n : (fit (fN pn.position) pn.best_val || first) = false := by
      rw [hval, hbv]; exact h1
    simp only [evalParticle3, evalParticlendim, h1, h1n, Bool.false_eq_true,
      if_false]
    exact ⟨⟨hv, hx, hbv⟩, hbp, hbval, hblog⟩
  | true =>
    have h1n : (fit (fN pn.position) pn.best_val || first) = true := by
      rw [hval, hbv]; exact h1
    cases h2 : fit (f3 p3.position.1 p3.position.2) b3.val ||
        decide (b3.val = DBL_MAX) with
    | false =>
      have h2n : (fit (fN pn.position) bN.val ||
          decide (bN.val = DBL_MAX)) = false := by
        rw [hval, hbval]; exact h2
      simp only [evalParticle3, evalParticlendim, h1, h1n, h2, h2n,
        Bool.false_eq_true, if_false, if_true]
      exact ⟨⟨hv, hx, hval⟩, hbp, hbval, hblog⟩
    | true =>
      have h2n : (fit (fN pn.position) bN.val ||
          decide (bN.val = DBL_MAX)) = true := by
        rw [hval, hbval]; exact h2
      simp only [evalParticle3, evalParticlendim, h1, h1n, h2, h2n, if_true]
      exact ⟨⟨hv, hx, hval⟩, by rw [hx], hval, by rw [hval, hblog]⟩

/-- The evaluation loops of the two variants correspond. -/
theorem evalSwarm_equiv (f3 : ℚ → ℚ → ℚ) (fN : List ℚ → ℚ)
    (fit : ℚ → ℚ → Bool) (first : Bool) (hfeq : ∀ x y, fN [x, y] = f3 x y) :
    ∀ (l3 : List TParticle3Dim) (lN : List TParticle) (b3 : GBest (ℚ × ℚ))
      (bN : GBest (List ℚ)), List.Forall₂ PRel l3 lN → BRel b3 bN →
      List.Forall₂ PRel (evalSwarm3 f3 fit first l3 b3).1
        (evalSwarmN fN fit first lN bN).1 ∧
      BRel (evalSwarm3 f3 fit first l3 b3).2
        (evalSwarmN fN fit first lN bN).2 := by
  intro l3
  induction l3 with
  | nil =>
    intro lN b3 bN hl hb
    cases hl
    exact ⟨List.Forall₂.nil, hb⟩
  | cons q qs ih =>
    intro lN b3 bN hl hb
    cases hl with
    | cons hq hqs =>
      have he := eval_equiv f3 fN fit first q _ b3 _ hfeq hq hb
      have hrest := ih _ _ _ hqs he.2
      exact ⟨List.Forall₂.cons he.1 hrest.1, hrest.2⟩

/-- The update loops of the two variants correspond (same generator in, same
generator out). -/
theorem updateSwarm_equiv (bounds : Bounds2) (bp : ℚ × ℚ) :
    ∀ (l3 : List TParticle3Dim) (lN : List TParticle) (g : RNG),
      List.Forall₂ PRel l3 lN →
      List.Forall₂ PRel (updateSwarm3 bounds bp l3 g).1
        (updateSwarmN [bounds.1, bounds.2] [bp.1, bp.2] 2 lN g).1 ∧
      (updateSwarmN [bounds.1, bounds.2] [bp.1, bp.2] 2 lN g).2 =
        (updateSwarm3 bounds bp l3 g).2 := by
  intro l3
  induction l3 with
  | nil =>
    intro lN g hl
    cases hl
    exact ⟨List.Forall₂.nil, rfl⟩
  | cons q qs ih =>
    intro lN g hl
    cases hl with
    | cons hq hqs =>
      have hu := update_equiv q _ bounds bp g hq
      have hrest := ih _ (update_particle3dim q bounds bp g).2 hqs
      constructor
      · simp only [updateSwarm3, updateSwarmN]
        exact List.Forall₂.cons hu.1 (by rw [hu.2]; exact hrest.1)
      · simp only [updateSwarm3, updateSwarmN]
        rw [hu.2]
        exact hrest.2

/-- One iteration of the two variants corresponds. -/
theorem iter_equiv (f3 : ℚ → ℚ → ℚ) (fN : List ℚ → ℚ) (fit : ℚ → ℚ → Bool)
    (bounds : Bounds2) (first : Bool) (st3 : State3) (stN : StateN)
    (hfeq : ∀ x y, fN [x, y] = f3 x y) (h : SRel st3 stN) :
    SRel (iter3 f3 fit bounds first st3)
      (iterN fN fit [bounds.1, bounds.2] 2 first stN) := by
  obtain ⟨hsw, hb, hg⟩ := h
  have he := evalSwarm_equiv f3 fN fit first hfeq st3.swarm stN.swarm
    st3.best stN.best hsw hb
  have hbp : (evalSwarmN fN fit first stN.swarm stN.best).2.pos =
      [(evalSwarm3 f3 fit first st3.swarm st3.best).2.pos.1,
        (evalSwarm3 f3 fit first st3.swarm st3.best).2.pos.2] := he.2.1
  have hu := updateSwarm_equiv bounds
    (evalSwarm3 f3 fit first st3.swarm st3.best).2.pos
    (evalSwarm3 f3 fit first st3.swarm st3.best).1
    (evalSwarmN fN fit first stN.swarm stN.best).1 st3.rng he.1
  refine ⟨?_, he.2, ?_⟩
  · show List.Forall₂ PRel (updateSwarm3 bounds _ _ st3.rng).1
      (updateSwarmN [bounds.1, bounds.2] _ 2 _ stN.rng).1
    rw [hg, hbp]
    exact hu.1
  · show (updateSwarmN [bounds.1, bounds.2] _ 2 _ stN.rng).2 =
      (updateSwarm3 bounds _ _ st3.rng).2
    rw [hg, hbp]
    exact hu.2

/-- The iteration loops of the two variants correspond. -/
theorem runIters_equiv (f3 : ℚ → ℚ → ℚ) (fN : List ℚ → ℚ)
    (fit : ℚ → ℚ → Bool) (bounds : Bounds2)
    (hfeq : ∀ x y, fN [x, y] = f3 x y) :
    ∀ (n i : ℕ) (st3 : State3) (stN : StateN), SRel st3 stN →
      SRel (runIters3 f3 fit bounds n i st3)
        (runItersN fN fit [bounds.1, bounds.2] 2 n i stN) := by
  intro n
  induction n with
  | zero => intro i st3 stN h; exact h
  | succ m ih =>
    intro i st3 stN h
    exact ih (i + 1) _ _ (iter_equiv f3 fN fit bounds (i == 0) st3 stN hfeq h)

/-- Claim C9 (amended) — for `D = 2` the two variants instantiate the same
per-iteration state machine: `psondim` called with `dimensions = 3` runs its
loop with `coords = 2` (first conjunct), and from any pair of matched states
(same particles, same global best, same generator) the two iteration loops
produce matched states and the identical best coordinates, for every
objective pair agreeing on 2-vectors, every fitness predicate, bounds,
particle count and iteration count.  Full runs from the *same* raw stream
are **not** identical, because initialization consumes draws in different
orders (see the counterexample) — hence the matched-state formulation. -/
theorem ndim_3dim_loop_equiv (f3 : ℚ → ℚ → ℚ) (fN : List ℚ → ℚ)
    (fit : ℚ → ℚ → Bool) (bounds : Bounds2) (n i : ℕ) (st3 : State3)
    (stN : StateN) (hfeq : ∀ x y, fN [x, y] = f3 x y) (hrel : SRel st3 stN) :
    (3 + 2 ^ 16 - 1) % 2 ^ 16 = 2 ∧
    SRel (runIters3 f3 fit bounds n i st3)
      (runItersN fN fit [bounds.1, bounds.2] 2 n i stN) ∧
    (runItersN fN fit [bounds.1, bounds.2] 2 n i stN).best.pos =
      [(runIters3 f3 fit bounds n i st3).best.pos.1,
        (runIters3 f3 fit bounds n i st3).best.pos.2] := by
  have h := runIters_equiv f3 fN fit bounds hfeq n i st3 stN hrel
  exact ⟨by norm_num, h, h.2.1.1⟩

/-- Claim C9 witness — concrete matched one-particle states (note the
deliberately different `best_pos` garbage, which neither variant reads), the
projection objective pair, one iteration. -/
theorem ndim_3dim_loop_equiv_witness :
    (3 + 2 ^ 16 - 1) % 2 ^ 16 = 2 ∧
    SRel (runIters3 (fun x _ => x) (fun a b => decide (a < b)) ((0, 1), (0, 1))
        1 0 ⟨[⟨(1, 2), (3, 4), (5, 6), 7⟩], ⟨(0, 0), DBL_MAX, []⟩,
          ⟨fun _ => 0, 0⟩⟩)
      (runItersN (fun xs => xs.headD 0) (fun a b => decide (a < b))
        [(0, 1), (0, 1)] 2 1 0
        ⟨[⟨[1, 2], [3, 4], [9, 9], 7⟩], ⟨[0, 0], DBL_MAX, []⟩,
          ⟨fun _ => 0, 0⟩⟩) ∧
    (runItersN (fun xs => xs.headD 0) (fun a b => decide (a < b))
        [(0, 1), (0, 1)] 2 1 0
        ⟨[⟨[1, 2], [3, 4], [9, 9], 7⟩], ⟨[0, 0], DBL_MAX, []⟩,
          ⟨fun _ => 0, 0⟩⟩).best.pos =
      [(runIters3 (fun x _ => x) (fun a b => decide (a < b)) ((0, 1), (0, 1))
          1 0 ⟨[⟨(1, 2), (3, 4), (5, 6), 7⟩], ⟨(0, 0), DBL_MAX, []⟩,
            ⟨fun _ => 0, 0⟩⟩).best.pos.1,
        (runIters3 (fun x _ => x) (fun a b => decide (a < b)) ((0, 1), (0, 1))
          1 0 ⟨[⟨(1, 2), (3, 4), (5, 6), 7⟩], ⟨(0, 0), DBL_MAX, []⟩,
            ⟨fun _ => 0, 0⟩⟩).best.pos.2] :=
  ndim_3dim_loop_equiv (fun x _ => x) (fun xs => xs.headD 0)
    (fun a b => decide (a < b)) ((0, 1), (0, 1)) 1 0
    ⟨[⟨(1, 2), (3, 4), (5, 6), 7⟩], ⟨(0, 0), DBL_MAX, []⟩, ⟨fun _ => 0, 0⟩⟩
    ⟨[⟨[1, 2], [3, 4], [9, 9], 7⟩], ⟨[0, 0], DBL_MAX, []⟩, ⟨fun _ => 0, 0⟩⟩
    (fun _ _ => rfl)
    ⟨List.Forall₂.cons ⟨rfl, rfl, rfl⟩ List.Forall₂.nil, ⟨rfl, rfl, rfl⟩, rfl⟩

/-- Claim C9 counterexample — full runs from the *same* pseudo-random stream do
not coincide: with the stream `0, 0, 1, 0, ...`, corresponding objectives
(`fN [x,y] = x = f3 x y`), bounds `[[0,1],[0,1]]`, one particle and one
iteration, `pso3dim` draws `v0, v1, x0, x1` (position `(1, 0)`) while
`psondim` draws `v0, x0, v1, x1` (position `(0, 0)`), so the returned best
coordinates differ. -/
theorem ndim_3dim_same_stream_cex :
    pso3dim (fun x _ => x) ((0, 1), (0, 1)) (fun a b => decide (a < b))
        [⟨(0, 0), (0, 0), (0, 0), 0⟩] 1 (0, 0)
        ⟨fun n => if n = 2 then 1 else 0, 0⟩ = (1, 0) ∧
    psondim (fun xs => xs.headD 0) [(0, 1), (0, 1)] 3
        (fun a b => decide (a < b)) [⟨[0, 0], [0, 0], [0, 0], 0⟩] 1 [0, 0]
        ⟨fun n => if n = 2 then 1 else 0, 0⟩ = [0, 0] ∧
    ¬ (psondim (fun xs => xs.headD 0) [(0, 1), (0, 1)] 3
        (fun a b => decide (a < b)) [⟨[0, 0], [0, 0], [0, 0], 0⟩] 1 [0, 0]
        ⟨fun n => if n = 2 then 1 else 0, 0⟩ =
      [(pso3dim (fun x _ => x) ((0, 1), (0, 1)) (fun a b => decide (a < b))
          [⟨(0, 0), (0, 0), (0, 0), 0⟩] 1 (0, 0)
          ⟨fun n => if n = 2 then 1 else 0, 0⟩).1,
        (pso3dim (fun x _ => x) ((0, 1), (0, 1)) (fun a b => decide (a < b))
          [⟨(0, 0), (0, 0), (0, 0), 0⟩] 1 (0, 0)
          ⟨fun n => if n = 2 then 1 else 0, 0⟩).2]) := by
  refine ⟨?_, ?_, ?_⟩
  · norm_num [pso3dim, pso3dimRun, initSwarm3, init_particle3dim,
      random_double, RNG.advance, runIters3, iter3, evalSwarm3, evalParticle3,
      updateSwarm3, update_particle3dim, clampPos, COEFF_W, COEFF_CP, COEFF_CG,
      DBL_MAX]
  · norm_num [psondim, psondimRun, initSwarmN, init_particlendim, initVP,
      random_double, RNG.advance, runItersN, iterN, evalSwarmN,
      evalParticlendim, updateSwarmN, update_particlendim, updVP, clampPos,
      COEFF_W, COEFF_CP, COEFF_CG, DBL_MAX, List.take, List.headD]
  · norm_num [pso3dim, psondim, pso3dimRun, psondimRun, initSwarm3,
      init_particle3dim, initSwarmN, init_particlendim, initVP, random_double,
      RNG.advance, runIters3, runItersN, iter3, iterN, evalSwarm3, evalSwarmN,
      evalParticle3, evalParticlendim, updateSwarm3, updateSwarmN,
      update_particle3dim, update_particlendim, updVP, clampPos, COEFF_W,
      COEFF_CP, COEFF_CG, DBL_MAX, List.take, List.headD]
